import Mathlib

/-!
Verification development for the BudgetWise store engine
(`src/budgetwise/app.js`).  The JavaScript store is shallowly embedded:
JS strings become `List Char`, JS numbers that the store keeps as integer
cents become `Int`, fallible operations return `Except`/`Option`, and the
impure id generator `createId()` / clock `new Date()` become explicit
parameters (`fresh : Nat → Str`, `now : Str`).  `String.prototype.localeCompare`
is modelled as code-unit lexicographic comparison, which is the ordering
contract the specification states for `date_iso`/`id` strings.
-/

namespace BudgetWise

/-- JS strings are modelled as lists of characters. -/
abbrev Str := List Char

/-- Shorthand to turn a Lean string literal into the `Str` model. -/
def str (s : String) : Str := s.toList

/-- Three-way comparison of single characters by code unit. -/
def charCmp (a b : Char) : Ordering :=
  if a < b then Ordering.lt else if b < a then Ordering.gt else Ordering.eq

/-- Lexicographic three-way comparison of strings by code units; this is the
model of `String.prototype.localeCompare` used by `compareTransactionsDesc`. -/
def lexCmp : Str → Str → Ordering
  | [], [] => Ordering.eq
  | [], _ :: _ => Ordering.lt
  | _ :: _, [] => Ordering.gt
  | a :: as, b :: bs =>
    match charCmp a b with
    | Ordering.eq => lexCmp as bs
    | o => o

/-- Model of `String.prototype.trim` (used by `addCategory`/`addRecurring`). -/
def jsTrim (s : Str) : Str :=
  ((s.dropWhile Char.isWhitespace).reverse.dropWhile Char.isWhitespace).reverse

/-- Model of JS string truthiness: the empty string is falsy. -/
def strTruthy (s : Str) : Bool := !s.isEmpty

/-! ## Calendar arithmetic

`new Date(iso)` followed by `getUTCFullYear`/`getUTCMonth` is embedded by an
explicit proleptic-Gregorian conversion between civil dates and days since
the Unix epoch (Howard Hinnant's `days_from_civil`/`civil_from_days`
algorithms, written with Lean's `Int` euclidean `/` and `%`, which agree
with floor division for the positive divisors used here). -/

/-- Leap-year test of the proleptic Gregorian calendar. -/
def isLeapYear (y : Int) : Bool := (y % 4 == 0 && y % 100 != 0) || y % 400 == 0

/-- Number of days of month `m` (1-based) in year `y`. -/
def daysInMonth (y : Int) (m : Int) : Int :=
  if m = 2 then (if isLeapYear y then 29 else 28)
  else if m = 4 ∨ m = 6 ∨ m = 9 ∨ m = 11 then 30
  else 31

/-- Days since 1970-01-01 of the civil date `(y, m, d)` (month 1-based). -/
def daysFromCivil (y m d : Int) : Int :=
  let y' := if m ≤ 2 then y - 1 else y
  let era := y' / 400
  let yoe := y' - era * 400
  let mp := (m + 9) % 12
  let doy := (153 * mp + 2) / 5 + d - 1
  let doe := yoe * 365 + yoe / 4 - yoe / 100 + doy
  era * 146097 + doe - 719468

/-- Civil date `(year, month, day)` (month 1-based) of a day count since
1970-01-01. -/
def civilFromDays (z : Int) : Int × Int × Int :=
  let z' := z + 719468
  let era := z' / 146097
  let doe := z' - era * 146097
  let yoe := (doe - doe / 1460 + doe / 36524 - doe / 146096) / 365
  let y := yoe + era * 400
  let doy := doe - (365 * yoe + yoe / 4 - yoe / 100)
  let mp := (5 * doy + 2) / 153
  let d := doy - (153 * mp + 2) / 5 + 1
  let m := if mp < 10 then mp + 3 else mp - 9
  (if m ≤ 2 then y + 1 else y, m, d)

/-- Digit value of an ASCII digit character. -/
def digitVal (c : Char) : Option Nat :=
  if c.isDigit then some (c.toNat - 48) else none

/-- Parse exactly `n` decimal digits, accumulating onto `acc`. -/
def parseNDigits : Nat → Nat → Str → Option (Nat × Str)
  | 0, acc, s => some (acc, s)
  | n + 1, acc, c :: s =>
    match digitVal c with
    | some d => parseNDigits n (acc * 10 + d) s
    | none => none
  | _ + 1, _, [] => none

/-- Expect a single literal character. -/
def expectChar (c : Char) : Str → Option Str
  | c' :: s => if c' = c then some s else none
  | [] => none

/-- Parse a trailing timezone designator: `Z` or `±HH:MM`, in minutes. -/
def parseOffset (s : Str) : Option Int :=
  match s with
  | ['Z'] => some 0
  | c :: rest =>
    if c = '+' ∨ c = '-' then
      match parseNDigits 2 0 rest with
      | some (h, rest1) =>
        match expectChar ':' rest1 with
        | some rest2 =>
          match parseNDigits 2 0 rest2 with
          | some (mi, []) =>
            if h ≤ 23 ∧ mi ≤ 59 then
              some (if c = '+' then (h * 60 + mi : Int) else -(h * 60 + mi : Int))
            else none
          | _ => none
        | none => none
      | none => none
    else none
  | [] => none

/-- Parse the `HH:MM[:SS[.sss]]` time-of-day part followed by a timezone
designator; returns `(hours, minutes, seconds, milliseconds, offsetMinutes)`.
Date-times without an explicit offset are interpreted by JS in local time;
they are outside this model's domain and parse to `none`. -/
def parseTime (s : Str) : Option (Nat × Nat × Nat × Nat × Int) :=
  match parseNDigits 2 0 s with
  | some (h, rest0) =>
    match expectChar ':' rest0 with
    | some rest1 =>
      match parseNDigits 2 0 rest1 with
      | some (mi, rest2) =>
        if h ≤ 23 ∧ mi ≤ 59 then
          match rest2 with
          | ':' :: rest3 =>
            match parseNDigits 2 0 rest3 with
            | some (se, rest4) =>
              if se ≤ 59 then
                match rest4 with
                | '.' :: rest5 =>
                  match parseNDigits 3 0 rest5 with
                  | some (ms, rest6) =>
                    (parseOffset rest6).map (fun off => (h, mi, se, ms, off))
                  | none => none
                | _ =>
                  (parseOffset rest4).map (fun off => (h, mi, se, 0, off))
              else none
            | none => none
          | _ =>
            (parseOffset rest2).map (fun off => (h, mi, 0, 0, off))
        else none
      | none => none
    | none => none
  | none => none

/-- Model of `new Date(iso).getTime()`: parse an ISO-8601 string to epoch
milliseconds.  Supported forms are `YYYY-MM-DD` (UTC midnight, as in JS) and
`YYYY-MM-DDTHH:MM[:SS[.sss]]` followed by `Z` or `±HH:MM`.  Strings outside
this grammar yield `none`, the model of an Invalid Date (whose
`getUTCFullYear()` is `NaN` and therefore equal to no candidate year). -/
def parseIso (s : Str) : Option Int :=
  match parseNDigits 4 0 s with
  | some (y, rest0) =>
    match expectChar '-' rest0 with
    | some rest1 =>
      match parseNDigits 2 0 rest1 with
      | some (mo, rest2) =>
        match expectChar '-' rest2 with
        | some rest3 =>
          match parseNDigits 2 0 rest3 with
          | some (dy, rest4) =>
            if 1 ≤ mo ∧ mo ≤ 12 ∧ 1 ≤ dy ∧ (dy : Int) ≤ daysInMonth y mo then
              match rest4 with
              | [] => some (daysFromCivil y mo dy * 86400000)
              | 'T' :: rest5 =>
                (parseTime rest5).map (fun p =>
                  match p with
                  | (h, mi, se, ms, off) =>
                    ((daysFromCivil y mo dy * 24 + h) * 60 + mi - off) * 60000
                      + se * 1000 + ms)
              | _ => none
            else none
          | none => none
        | none => none
      | none => none
    | none => none
  | none => none

/-- Model of `Date.prototype.getUTCFullYear` on an epoch-milliseconds value. -/
def getUTCFullYear (ms : Int) : Int := (civilFromDays (ms / 86400000)).1

/-- Model of `Date.prototype.getUTCMonth` (0-based month) on an
epoch-milliseconds value. -/
def getUTCMonth (ms : Int) : Int := (civilFromDays (ms / 86400000)).2.1 - 1

/-- Embedding of `isSameMonth` (`app.js` lines 173-176): parse `dateIso` and
compare the UTC calendar year and 0-based month of the instant with the
requested ones.  An unparsable string is never in any month. -/
def isSameMonth (dateIso : Str) (year monthIndex : Int) : Bool :=
  match parseIso dateIso with
  | none => false
  | some ms => getUTCFullYear ms == year && getUTCMonth ms == monthIndex

/-- Modelled from the spec: the month-membership test that §4.4 describes,
“the same month/year as interpreted by the platform's local calendar”.  The
platform's local clock is the UTC instant shifted by the zone offset
`tzMinutes` (minutes east of UTC); this definition is not in the source and
exists only to be compared against the source's `isSameMonth`. -/
def isSameMonthLocalSpec (tzMinutes : Int) (dateIso : Str)
    (year monthIndex : Int) : Bool :=
  match parseIso dateIso with
  | none => false
  | some ms =>
    getUTCFullYear (ms + tzMinutes * 60000) == year &&
      getUTCMonth (ms + tzMinutes * 60000) == monthIndex

/-! ## Domain model

Typed embedding of the four collections.  Raw (`Raw*`) records model the
JSON values read from storage or an import payload: every field is optional
(`none` = absent/`undefined`/`null`), and list entries are `Option`-wrapped
(`none` = a non-object entry dropped by the normalizers' object filter).
The embedding types each present field with the JS type the application
writes; exotic cross-typed values (e.g. a numeric `id`) are outside the
model's domain. -/

/-- `STORAGE_VERSION` (`app.js` line 8). -/
def STORAGE_VERSION : Int := 1

/-- `BUCKETS` (`app.js` line 16). -/
def BUCKETS : List Str := [str "Necessities", str "Leisure", str "Savings"]

/-- The `rule` object of settings; percentages as the UI writes them. -/
structure Rule where
  necessities : Int
  leisure : Int
  savings : Int
deriving DecidableEq, Repr

/-- `DEFAULT_RULE` (`app.js` lines 18-22). -/
def DEFAULT_RULE : Rule := { necessities := 50, leisure := 30, savings := 20 }

/-- Normalized settings object. -/
structure Settings where
  currency : Str
  locale : Str
  rule : Rule
  firstDayOfWeek : Int
  showAdvancedCharts : Bool
  hapticFeedback : Bool
  schema_version : Int
deriving DecidableEq, Repr

/-- `DEFAULT_SETTINGS` (`app.js` lines 24-32). -/
def DEFAULT_SETTINGS : Settings :=
  { currency := str "USD", locale := str "en-US", rule := DEFAULT_RULE,
    firstDayOfWeek := 1, showAdvancedCharts := false, hapticFeedback := false,
    schema_version := STORAGE_VERSION }

/-- Normalized category record. -/
structure Category where
  id : Str
  name : Str
  bucket : Str
  archived : Bool
deriving DecidableEq, Repr

/-- Normalized transaction record.  `type` is kept as a string because
`updateTransaction` merges raw updates and can store strings other than
`"income"`/`"expense"`. -/
structure Transaction where
  id : Str
  type : Str
  amount_cents : Int
  description : Str
  category_id : Option Str
  bucket : Option Str
  date_iso : Str
deriving DecidableEq, Repr

/-- Normalized recurring-template record. -/
structure Recurring where
  id : Str
  description : Str
  default_amount_cents : Int
  category_id : Option Str
deriving DecidableEq, Repr

/-- Raw `rule` object from storage/import. -/
structure RawRule where
  necessities : Option Int
  leisure : Option Int
  savings : Option Int
deriving DecidableEq, Repr

/-- Raw settings object from storage/import. -/
structure RawSettings where
  currency : Option Str
  locale : Option Str
  rule : Option RawRule
  firstDayOfWeek : Option Int
  showAdvancedCharts : Option Bool
  hapticFeedback : Option Bool
  schema_version : Option Int
deriving DecidableEq, Repr

/-- Raw category record from storage/import. -/
structure RawCategory where
  id : Option Str
  name : Option Str
  bucket : Option Str
  archived : Option Bool
deriving DecidableEq, Repr

/-- Raw transaction record from storage/import. -/
structure RawTransaction where
  id : Option Str
  type : Option Str
  amount_cents : Option Int
  description : Option Str
  category_id : Option Str
  bucket : Option Str
  date_iso : Option Str
deriving DecidableEq, Repr

/-- Raw recurring-template record from storage/import. -/
structure RawRecurring where
  id : Option Str
  description : Option Str
  default_amount_cents : Option Int
  category_id : Option Str
deriving DecidableEq, Repr

attribute [ext] Rule Settings Category Transaction Recurring

/-- Model of `x || fallback` on a string-valued optional field: absent,
`null` and the empty string are falsy. -/
def jsOrStr (v : Option Str) (fallback : Str) : Str :=
  match v with
  | some s => if s.isEmpty then fallback else s
  | none => fallback

/-- Model of `x || null` on a string-valued optional field. -/
def jsOrNull (v : Option Str) : Option Str :=
  match v with
  | some s => if s.isEmpty then none else some s
  | none => none

/-- Map with the element's position, starting at index `i`; the explicit
counter models successive `createId()` calls inside an array `map`. -/
def mapWithIndex (f : Nat → α → β) : Nat → List α → List β
  | _, [] => []
  | i, x :: xs => f i x :: mapWithIndex f (i + 1) xs

/-- Embedding of `normalizeSettings` (`app.js` lines 213-225): shallow-merge
over `DEFAULT_SETTINGS`, force `schema_version`, merge `rule` over
`DEFAULT_RULE`, coerce booleans, and coerce `firstDayOfWeek` to 0 only if it
is exactly 0. -/
def normalizeSettings (raw : Option RawSettings) : Settings :=
  let rawRule := (raw.bind RawSettings.rule)
  { currency := (raw.bind RawSettings.currency).getD DEFAULT_SETTINGS.currency,
    locale := (raw.bind RawSettings.locale).getD DEFAULT_SETTINGS.locale,
    rule :=
      { necessities := (rawRule.bind RawRule.necessities).getD DEFAULT_RULE.necessities,
        leisure := (rawRule.bind RawRule.leisure).getD DEFAULT_RULE.leisure,
        savings := (rawRule.bind RawRule.savings).getD DEFAULT_RULE.savings },
    firstDayOfWeek :=
      if (raw.bind RawSettings.firstDayOfWeek).getD DEFAULT_SETTINGS.firstDayOfWeek = 0
      then 0 else 1,
    showAdvancedCharts :=
      (raw.bind RawSettings.showAdvancedCharts).getD DEFAULT_SETTINGS.showAdvancedCharts,
    hapticFeedback :=
      (raw.bind RawSettings.hapticFeedback).getD DEFAULT_SETTINGS.hapticFeedback,
    schema_version := STORAGE_VERSION }

/-- The per-record coercion of `normalizeCategories` (`app.js` lines
231-236).  `fresh` models `createId()`, indexed by the record's position in
the filtered list. -/
def normalizeCategoryRecord (fresh : Nat → Str) (i : Nat) (item : RawCategory) : Category :=
  { id := jsOrStr item.id (fresh i),
    name := item.name.getD (str "Untitled"),
    bucket := if item.bucket.getD [] ∈ BUCKETS then item.bucket.getD [] else str "Necessities",
    archived := item.archived.getD false }

/-- Embedding of `normalizeCategories` (`app.js` lines 227-237): filter
non-object entries and coerce each survivor with `normalizeCategoryRecord`. -/
def normalizeCategories (fresh : Nat → Str)
    (list : Option (List (Option RawCategory))) : List Category :=
  match list with
  | none => []
  | some l => mapWithIndex (normalizeCategoryRecord fresh) 0 (l.filterMap id)

/-- The per-record coercion of `normalizeTransactions` (`app.js` lines
243-256); `now` models `new Date().toISOString()`. -/
def normalizeTransactionRecord (fresh : Nat → Str) (now : Str) (i : Nat)
    (tx : RawTransaction) : Transaction :=
  { id := jsOrStr tx.id (fresh i)
    type := if tx.type = some (str "income") then str "income" else str "expense"
    amount_cents := match tx.amount_cents with
      | some n => max 0 n
      | none => 0
    description := tx.description.getD []
    category_id := jsOrNull tx.category_id
    bucket := match tx.bucket with
      | some b => if b ∈ BUCKETS then some b else none
      | none => none
    date_iso := tx.date_iso.getD now }

/-- Embedding of `normalizeTransactions` (`app.js` lines 239-258): filter
non-object entries, coerce each survivor, and drop transactions whose
normalized amount is not positive. -/
def normalizeTransactions (fresh : Nat → Str) (now : Str)
    (list : Option (List (Option RawTransaction))) : List Transaction :=
  match list with
  | none => []
  | some l =>
    (mapWithIndex (normalizeTransactionRecord fresh now) 0 (l.filterMap id)).filter
      (fun tx => 0 < tx.amount_cents)

/-- The per-record coercion of `normalizeRecurring` (`app.js` lines
264-272). -/
def normalizeRecurringRecord (fresh : Nat → Str) (i : Nat) (item : RawRecurring) : Recurring :=
  { id := jsOrStr item.id (fresh i),
    description := item.description.getD [],
    default_amount_cents := match item.default_amount_cents with
      | some n => max 0 n
      | none => 0,
    category_id := jsOrNull item.category_id }

/-- Embedding of `normalizeRecurring` (`app.js` lines 260-273). -/
def normalizeRecurring (fresh : Nat → Str)
    (list : Option (List (Option RawRecurring))) : List Recurring :=
  match list with
  | none => []
  | some l => mapWithIndex (normalizeRecurringRecord fresh) 0 (l.filterMap id)

/-- Re-injection of a normalized `Rule` into the raw domain. -/
def Rule.toRaw (r : Rule) : RawRule :=
  { necessities := some r.necessities, leisure := some r.leisure,
    savings := some r.savings }

/-- Re-injection of normalized `Settings` into the raw domain (what
`JSON.stringify`-ing and re-reading the object yields). -/
def Settings.toRaw (s : Settings) : RawSettings :=
  { currency := some s.currency, locale := some s.locale,
    rule := some s.rule.toRaw, firstDayOfWeek := some s.firstDayOfWeek,
    showAdvancedCharts := some s.showAdvancedCharts,
    hapticFeedback := some s.hapticFeedback,
    schema_version := some s.schema_version }

/-- Re-injection of a normalized `Category` into the raw domain. -/
def Category.toRaw (c : Category) : RawCategory :=
  { id := some c.id, name := some c.name, bucket := some c.bucket,
    archived := some c.archived }

/-- Re-injection of a normalized `Transaction` into the raw domain. -/
def Transaction.toRaw (t : Transaction) : RawTransaction :=
  { id := some t.id, type := some t.type, amount_cents := some t.amount_cents,
    description := some t.description, category_id := t.category_id,
    bucket := t.bucket, date_iso := some t.date_iso }

/-- Re-injection of a normalized `Recurring` into the raw domain. -/
def Recurring.toRaw (r : Recurring) : RawRecurring :=
  { id := some r.id, description := some r.description,
    default_amount_cents := some r.default_amount_cents,
    category_id := r.category_id }

/-! ## Sorting -/

/-- Embedding of `compareTransactionsDesc` (`app.js` lines 166-171). -/
def compareTransactionsDesc (a b : Transaction) : Ordering :=
  if a.date_iso ≠ b.date_iso then lexCmp b.date_iso a.date_iso
  else lexCmp b.id a.id

/-- `Array.prototype.sort(compareTransactionsDesc)` keeps `a` before `b`
when the comparator is non-positive; this is that boolean relation. -/
def txLe (a b : Transaction) : Bool :=
  match compareTransactionsDesc a b with
  | Ordering.gt => false
  | _ => true

/-- Model of `Array.prototype.sort(compareTransactionsDesc)`: JS sort is
stable, so it is modelled by a stable sort (insertion sort) under the
comparator-nonpositive relation. -/
def sortTx (l : List Transaction) : List Transaction :=
  List.insertionSort (fun a b => txLe a b = true) l

/-- The sort key of a transaction: `(date_iso, id)`. -/
def txKey (t : Transaction) : Str × Str := (t.date_iso, t.id)

/-- `a` is lexicographically strictly greater than `b`. -/
def strGt (a b : Str) : Prop := lexCmp a b = Ordering.gt

/-- The strict descending adjacency relation stated by the specification's
sort invariant: `a.date_iso > b.date_iso`, or equal dates and `a.id > b.id`. -/
def txAfter (a b : Transaction) : Prop :=
  strGt a.date_iso b.date_iso ∨ (a.date_iso = b.date_iso ∧ strGt a.id b.id)

/-! ## Store state and operations -/

/-- The four collections owned by the Store. -/
structure StoreState where
  settings : Settings
  categories : List Category
  transactions : List Transaction
  recurring : List Recurring
deriving DecidableEq, Repr

/-- A change descriptor passed to subscribers by `notify` (only the fields
the claims observe: the `type` tag and, for imports, the strategy). -/
structure Event where
  type : Str
  strategy : Option Str := none
deriving DecidableEq, Repr

/-- The store together with its persistence adapter's snapshot (`storage`,
the last written value of the four keys) and the log of notifications
delivered to subscribers. -/
structure Store where
  state : StoreState
  storage : StoreState
  events : List Event
deriving DecidableEq, Repr

/-- Embedding of `persist` (`app.js` lines 275-280): write the in-memory
collections to storage. -/
def persist (s : Store) : Store := { s with storage := s.state }

/-- Embedding of `notify` (`app.js` lines 282-286): deliver a change
descriptor to every subscriber. -/
def notify (e : Event) (s : Store) : Store := { s with events := s.events ++ [e] }

/-- `DEFAULT_CATEGORIES` (`app.js` lines 34-38); ids come from `createId()`. -/
def DEFAULT_CATEGORIES (fresh : Nat → Str) : List Category :=
  [ { id := fresh 0, name := str "Housing", bucket := str "Necessities", archived := false },
    { id := fresh 1, name := str "Groceries", bucket := str "Necessities", archived := false },
    { id := fresh 2, name := str "Fun", bucket := str "Leisure", archived := false } ]

/-- Embedding of `loadFromStorage` (`app.js` lines 201-211): run every
stored collection through its normalizer.  The storage snapshot is the
typed value last written by `persist`, re-injected into the raw domain. -/
def loadedState (fresh : Nat → Str) (now : Str) (stored : StoreState) : StoreState :=
  { settings := normalizeSettings (some stored.settings.toRaw)
    categories := normalizeCategories fresh (some (stored.categories.map (fun c => some c.toRaw)))
    transactions := normalizeTransactions fresh now (some (stored.transactions.map (fun t => some t.toRaw)))
    recurring := normalizeRecurring fresh (some (stored.recurring.map (fun r => some r.toRaw))) }

/-- Embedding of `Store.init` (`app.js` lines 304-308): load from storage
and notify. -/
def Store.init (fresh : Nat → Str) (now : Str) (s : Store) : Store :=
  notify { type := str "init" } { s with state := loadedState fresh now s.storage }

/-- Embedding of `reset` (`app.js` lines 139-146 and 487-494): clear
storage, re-seed the defaults, re-load and notify. -/
def reset (fresh : Nat → Str) (now : Str) (s : Store) : Store :=
  let defaults : StoreState :=
    { settings := DEFAULT_SETTINGS, categories := DEFAULT_CATEGORIES fresh,
      transactions := [], recurring := [] }
  notify { type := str "app:reset" }
    { s with storage := defaults, state := loadedState fresh now defaults }

/-- Embedding of `getCategoryBucket` (`app.js` lines 353-356). -/
def getCategoryBucket (cats : List Category) (categoryId : Option Str) : Option Str :=
  match categoryId with
  | none => none
  | some cid => (cats.find? (fun cat => cat.id == cid)).map Category.bucket

/-- A partial transaction draft as destructured by `buildTransaction`
(`app.js` lines 325-332); `none` models an absent field, picking up the
destructuring default. -/
structure Draft where
  type : Option Str := none
  amount_cents : Int
  description : Option Str := none
  category_id : Option Str := none
  bucket : Option Str := none
  date_iso : Option Str := none
deriving DecidableEq, Repr

/-- Embedding of `buildTransaction` (`app.js` lines 325-351). -/
def buildTransaction (newId now : Str) (cats : List Category) (d : Draft) : Transaction :=
  let normalizedType := if d.type = some (str "income") then str "income" else str "expense"
  let amount := max 0 d.amount_cents
  let resolvedBucket :=
    if normalizedType = str "expense" ∧ d.bucket.getD [] ∈ BUCKETS then d.bucket
    else if normalizedType = str "expense" ∧ strTruthy (d.category_id.getD []) then
      getCategoryBucket cats d.category_id
    else none
  { id := newId
    type := normalizedType
    amount_cents := amount
    description := d.description.getD []
    category_id := if normalizedType = str "expense" then d.category_id else none
    bucket := if normalizedType = str "expense" then resolvedBucket else none
    date_iso := d.date_iso.getD now }

/-- Embedding of `addTransaction` (`app.js` lines 315-323): build, insert,
re-sort, persist, notify. -/
def addTransaction (newId now : Str) (d : Draft) (s : Store) : Store × Transaction :=
  let transaction := buildTransaction newId now s.state.categories d
  let s :=
    { s with state :=
        { s.state with transactions := sortTx (s.state.transactions ++ [transaction]) } }
  (notify { type := str "transactions:add" } (persist s), transaction)

/-- Updates merged onto a transaction by `updateTransaction`; `none` models
an absent key (the existing field is retained).  `category_id`/`bucket` may
be present-and-null (`some none`).  The application never places an `id`
key in updates, and the model fixes the merged `id` to the existing one. -/
structure TxUpdates where
  type : Option Str := none
  amount_cents : Option Int := none
  description : Option Str := none
  category_id : Option (Option Str) := none
  bucket : Option (Option Str) := none
  date_iso : Option Str := none
deriving DecidableEq, Repr

/-- The merged record `updateTransaction` produces for a matching `tx`
(`app.js` lines 362-383). -/
def mergeTransaction (cats : List Category) (tx : Transaction) (u : TxUpdates) : Transaction :=
  let mtype := u.type.getD tx.type
  let mcat := u.category_id.getD tx.category_id
  let mbucketRaw := u.bucket.getD tx.bucket
  { id := tx.id
    type := mtype
    amount_cents := max 0 (u.amount_cents.getD tx.amount_cents)
    description := u.description.getD tx.description
    category_id := if mtype = str "expense" then mcat else none
    bucket :=
      if mtype = str "expense" then
        (if mbucketRaw.getD [] ∈ BUCKETS then mbucketRaw else getCategoryBucket cats mcat)
      else none
    date_iso := u.date_iso.getD tx.date_iso }

/-- Embedding of `updateTransaction` (`app.js` lines 358-389): merge onto
the matching record, re-resolve bucket/category, re-coerce the amount,
re-sort in place, persist, notify, and return the merged record (or
nothing when the id is absent). -/
def updateTransaction (id0 : Str) (u : TxUpdates) (s : Store) : Store × Option Transaction :=
  let cats := s.state.categories
  let mapped := s.state.transactions.map (fun tx =>
    if tx.id = id0 then mergeTransaction cats tx u else tx)
  let target := ((s.state.transactions.filter (fun tx => tx.id == id0)).map
    (fun tx => mergeTransaction cats tx u)).getLast?
  let s := { s with state := { s.state with transactions := sortTx mapped } }
  (notify { type := str "transactions:update" } (persist s), target)

/-- Embedding of `deleteTransaction` (`app.js` lines 391-397). -/
def deleteTransaction (id0 : Str) (s : Store) : Store × Option Transaction :=
  let removed := s.state.transactions.find? (fun tx => tx.id == id0)
  let s :=
    { s with state :=
        { s.state with transactions := s.state.transactions.filter (fun tx => tx.id != id0) } }
  (notify { type := str "transactions:delete" } (persist s), removed)

/-- Embedding of `addCategory` (`app.js` lines 399-410). -/
def addCategory (newId : Str) (name : Str) (bucket : Option Str) (s : Store) : Store × Category :=
  let category : Category :=
    { id := newId
      name := jsOrStr (some (jsTrim name)) (str "Untitled")
      bucket := if bucket.getD [] ∈ BUCKETS then bucket.getD [] else str "Necessities"
      archived := false }
  let s := { s with state := { s.state with categories := s.state.categories ++ [category] } }
  (notify { type := str "categories:add" } (persist s), category)

/-- Updates merged onto a category by `updateCategory`. -/
structure CatUpdates where
  name : Option Str := none
  bucket : Option Str := none
  archived : Option Bool := none
deriving DecidableEq, Repr

/-- The merged record `updateCategory` produces (`app.js` lines 414-423). -/
def mergeCategory (cat : Category) (u : CatUpdates) : Category :=
  let mbucket := u.bucket.getD cat.bucket
  { id := cat.id
    name := u.name.getD cat.name
    bucket := if mbucket ∈ BUCKETS then mbucket else str "Necessities"
    archived := u.archived.getD cat.archived }

/-- Embedding of `updateCategory` (`app.js` lines 412-428). -/
def updateCategory (id0 : Str) (u : CatUpdates) (s : Store) : Store × Option Category :=
  let mapped := s.state.categories.map (fun cat =>
    if cat.id = id0 then mergeCategory cat u else cat)
  let target := ((s.state.categories.filter (fun cat => cat.id == id0)).map
    (fun cat => mergeCategory cat u)).getLast?
  let s := { s with state := { s.state with categories := mapped } }
  (notify { type := str "categories:update" } (persist s), target)

/-- Embedding of `archiveCategory` (`app.js` lines 430-432). -/
def archiveCategory (id0 : Str) (archived : Bool) (s : Store) : Store × Option Category :=
  updateCategory id0 { archived := some archived } s

/-- Embedding of `addRecurring` (`app.js` lines 434-448). -/
def addRecurring (newId : Str) (description : Str) (default_amount_cents : Int)
    (category_id : Option Str) (s : Store) : Store × Recurring :=
  let template : Recurring :=
    { id := newId
      description := jsOrStr (some (jsTrim description)) (str "Template")
      default_amount_cents := max 0 default_amount_cents
      category_id := jsOrNull category_id }
  let s := { s with state := { s.state with recurring := s.state.recurring ++ [template] } }
  (notify { type := str "recurring:add" } (persist s), template)

/-- Updates merged onto a recurring template by `updateRecurring`. -/
structure RecUpdates where
  description : Option Str := none
  default_amount_cents : Option Int := none
  category_id : Option (Option Str) := none
deriving DecidableEq, Repr

/-- The merged record `updateRecurring` produces (`app.js` lines 452-462). -/
def mergeRecurring (r : Recurring) (u : RecUpdates) : Recurring :=
  { id := r.id
    description := u.description.getD r.description
    default_amount_cents := max 0 (u.default_amount_cents.getD r.default_amount_cents)
    category_id := u.category_id.getD r.category_id }

/-- Embedding of `updateRecurring` (`app.js` lines 450-467). -/
def updateRecurring (id0 : Str) (u : RecUpdates) (s : Store) : Store × Option Recurring :=
  let mapped := s.state.recurring.map (fun r =>
    if r.id = id0 then mergeRecurring r u else r)
  let target := ((s.state.recurring.filter (fun r => r.id == id0)).map
    (fun r => mergeRecurring r u)).getLast?
  let s := { s with state := { s.state with recurring := mapped } }
  (notify { type := str "recurring:update" } (persist s), target)

/-- Embedding of `deleteRecurring` (`app.js` lines 469-475). -/
def deleteRecurring (id0 : Str) (s : Store) : Store × Option Recurring :=
  let target := s.state.recurring.find? (fun r => r.id == id0)
  let s :=
    { s with state :=
        { s.state with recurring := s.state.recurring.filter (fun r => r.id != id0) } }
  (notify { type := str "recurring:delete" } (persist s), target)

/-- Embedding of `saveSettings` (`app.js` lines 477-485): re-normalize the
merge of the current settings and the partial updates. -/
def saveSettings (u : RawSettings) (s : Store) : Store × Settings :=
  let cur := s.state.settings
  let merged : RawSettings :=
    { currency := some (u.currency.getD cur.currency)
      locale := some (u.locale.getD cur.locale)
      rule := some (u.rule.getD cur.rule.toRaw)
      firstDayOfWeek := some (u.firstDayOfWeek.getD cur.firstDayOfWeek)
      showAdvancedCharts := some (u.showAdvancedCharts.getD cur.showAdvancedCharts)
      hapticFeedback := some (u.hapticFeedback.getD cur.hapticFeedback)
      schema_version := some (u.schema_version.getD cur.schema_version) }
  let settings := normalizeSettings (some merged)
  let s := { s with state := { s.state with settings := settings } }
  (notify { type := str "settings:update" } (persist s), settings)

/-! ## Import / export -/

/-- An import payload (the shape `exportData` writes; any field may be
absent or malformed in an adversarial file). -/
structure Payload where
  schema_version : Option Int := none
  settings : Option RawSettings := none
  categories : Option (List (Option RawCategory)) := none
  recurring : Option (List (Option RawRecurring)) := none
  transactions : Option (List (Option RawTransaction)) := none
deriving DecidableEq, Repr

/-- The typed import failure: the `SCHEMA_MISMATCH` error thrown by
`importData`. -/
inductive ImportError where
  | schemaMismatch
deriving DecidableEq, Repr

/-- Embedding of `exportData` (`app.js` lines 496-504). -/
def exportData (st : StoreState) : Payload :=
  { schema_version := some STORAGE_VERSION
    settings := some st.settings.toRaw
    categories := some (st.categories.map (fun c => some c.toRaw))
    recurring := some (st.recurring.map (fun r => some r.toRaw))
    transactions := some (st.transactions.map (fun t => some t.toRaw)) }

/-- Embedding of `dedupeById` (`app.js` lines 552-560), with the explicit
`seen` set: records with a falsy id are dropped, the first record with each
id is kept. -/
def dedupeByIdGo (getId : α → Str) (seen : List Str) : List α → List α
  | [] => []
  | x :: xs =>
    if (getId x).isEmpty then dedupeByIdGo getId seen xs
    else if getId x ∈ seen then dedupeByIdGo getId seen xs
    else x :: dedupeByIdGo getId (getId x :: seen) xs

/-- `dedupeById` starting from the empty `seen` set. -/
def dedupeById (getId : α → Str) (list : List α) : List α := dedupeByIdGo getId [] list

/-- Embedding of `importData` (`app.js` lines 506-550): reject a missing or
mismatched `schema_version` before touching anything; otherwise normalize
the payload, apply the replace or merge strategy, persist and notify. -/
def importData (fresh : Nat → Str) (now : Str) (payload : Option Payload)
    (strategy : Str) (s : Store) : Except ImportError Store :=
  match payload with
  | none => Except.error ImportError.schemaMismatch
  | some p =>
    if p.schema_version ≠ some STORAGE_VERSION then Except.error ImportError.schemaMismatch
    else
      let importedSettings := normalizeSettings p.settings
      let importedCategories := normalizeCategories fresh p.categories
      let importedRecurring := normalizeRecurring fresh p.recurring
      let importedTransactions := normalizeTransactions fresh now p.transactions
      let st := s.state
      let newState : StoreState :=
        if strategy = str "merge" then
          let existingCategoryIds := st.categories.map Category.id
          { settings := importedSettings
            categories :=
              st.categories ++ importedCategories.filter (fun cat => cat.id ∉ existingCategoryIds)
            transactions :=
              sortTx (dedupeById Transaction.id (st.transactions ++ importedTransactions))
            recurring := dedupeById Recurring.id (st.recurring ++ importedRecurring) }
        else
          { settings := importedSettings
            categories := importedCategories
            transactions := sortTx importedTransactions
            recurring := importedRecurring }
      Except.ok
        (notify { type := str "data:import", strategy := some strategy }
          (persist { s with state := newState }))

/-! ## Aggregation -/

/-- One bucket row of `getMonthlyTotals`. -/
structure BucketReport where
  spent_cents : Int
  budget_cents : Int
  remaining_cents : Int
deriving DecidableEq, Repr

/-- The four bucket rows of `getMonthlyTotals`. -/
structure Buckets where
  Necessities : BucketReport
  Leisure : BucketReport
  Savings : BucketReport
  Uncategorized : BucketReport
deriving DecidableEq, Repr

/-- The result of `getMonthlyTotals`. -/
structure MonthlyTotals where
  income_cents : Int
  expense_cents : Int
  buckets : Buckets
deriving DecidableEq, Repr

/-- Accumulator of the transaction loop in `getMonthlyTotals`. -/
structure TotalsAcc where
  income_cents : Int
  expense_cents : Int
  nec : Int
  lei : Int
  sav : Int
  unc : Int
deriving DecidableEq, Repr

/-- Model of `Math.round(n * (p / 100))` in exact arithmetic: the euclidean
quotient `(2·n·p + 100) / 200` equals `⌊n·p/100 + 1/2⌋`, JS round-half-up. -/
def roundPct (n p : Int) : Int := (2 * (n * p) + 100) / 200

/-- Embedding of `getMonthlyTotals` (`app.js` lines 562-605). -/
def getMonthlyTotals (st : StoreState) (year monthIndex : Int) : MonthlyTotals :=
  let acc := st.transactions.foldl (fun (a : TotalsAcc) tx =>
    if ¬ isSameMonth tx.date_iso year monthIndex then a
    else if tx.type = str "income" then
      { a with income_cents := a.income_cents + tx.amount_cents }
    else
      let a := { a with expense_cents := a.expense_cents + tx.amount_cents }
      match tx.bucket with
      | some b =>
        if b = str "Necessities" then { a with nec := a.nec + tx.amount_cents }
        else if b = str "Leisure" then { a with lei := a.lei + tx.amount_cents }
        else if b = str "Savings" then { a with sav := a.sav + tx.amount_cents }
        else { a with unc := a.unc + tx.amount_cents }
      | none => { a with unc := a.unc + tx.amount_cents })
    { income_cents := 0, expense_cents := 0, nec := 0, lei := 0, sav := 0, unc := 0 }
  let mkBucket := fun (spent budget : Int) =>
    ({ spent_cents := spent
       budget_cents := budget
       remaining_cents := if budget ≠ 0 then budget - spent else -spent } : BucketReport)
  { income_cents := acc.income_cents
    expense_cents := acc.expense_cents
    buckets :=
      { Necessities := mkBucket acc.nec (roundPct acc.income_cents st.settings.rule.necessities)
        Leisure := mkBucket acc.lei (roundPct acc.income_cents st.settings.rule.leisure)
        Savings := mkBucket acc.sav (roundPct acc.income_cents st.settings.rule.savings)
        Uncategorized := mkBucket acc.unc 0 } }

/-! ## Pagination -/

/-- The cursor written by `getRecentTransactions`:
`` `${last.date_iso}|${last.id}` ``. -/
def encodeCursor (t : Transaction) : Str := t.date_iso ++ '|' :: t.id

/-- The start index computed from a cursor by `getRecentTransactions`
(`app.js` lines 635-646): split on `|`, find the matching record, resume
after it, and restart from 0 when the cursor matches nothing (JS
`findIndex` returning `-1` is modelled by `findIdx` returning the length). -/
def startIndexOf (sorted : List Transaction) (cursor : Option Str) : Nat :=
  match cursor with
  | none => 0
  | some c =>
    if c.isEmpty then 0
    else
      let parts := c.splitOn '|'
      let cursorDate := parts.headD []
      let cursorId := parts[1]?
      let i := sorted.findIdx (fun tx => tx.date_iso == cursorDate && cursorId == some tx.id)
      if i < sorted.length then i + 1 else 0

/-- A page returned by `getRecentTransactions`. -/
structure Page where
  items : List Transaction
  nextCursor : Option Str
  hasMore : Bool
deriving DecidableEq, Repr

/-- Embedding of `getRecentTransactions` (`app.js` lines 633-659). -/
def getRecentTransactions (st : StoreState) (limit : Nat) (cursor : Option Str) : Page :=
  let sorted := sortTx st.transactions
  let startIndex := startIndexOf sorted cursor
  let slice := (sorted.drop startIndex).take limit
  let nextCursor := if slice.length = limit then slice.getLast?.map encodeCursor else none
  { items := slice
    nextCursor := nextCursor
    hasMore := nextCursor.isSome }

/-- The paging loop of the specification's pagination property: repeatedly
call `getRecentTransactions`, feeding each returned cursor into the next
call and stopping when `hasMore` is false; `fuel` bounds the iteration. -/
def collectPages (st : StoreState) (limit : Nat) : Nat → Option Str → List Transaction
  | 0, _ => []
  | fuel + 1, cursor =>
    let page := getRecentTransactions st limit cursor
    if page.hasMore then page.items ++ collectPages st limit fuel page.nextCursor
    else page.items

/-! ## Derived definitions used by the statements -/

/-- The store as the caller observes it after calling `importData`: the
source throws before mutating anything on a schema mismatch, so the caller's
store is unchanged in the error case. -/
def importDataResult (fresh : Nat → Str) (now : Str) (payload : Option Payload)
    (strategy : Str) (s : Store) : Store :=
  match importData fresh now payload strategy s with
  | Except.ok s' => s'
  | Except.error _ => s

/-- What one pass of the transaction normalizer does to an in-model record
that already has an id: the id, description and date are kept, the type is
coerced to `"income"`/`"expense"`, the amount is clamped, and category/bucket
references are re-checked. -/
def normTxFix (t : Transaction) : Transaction :=
  { id := t.id
    type := if t.type = str "income" then str "income" else str "expense"
    amount_cents := max 0 t.amount_cents
    description := t.description
    category_id := jsOrNull t.category_id
    bucket := match t.bucket with
      | some b => if b ∈ BUCKETS then some b else none
      | none => none
    date_iso := t.date_iso }

/-- One pass of the category normalizer on an in-model record with an id. -/
def normCatFix (c : Category) : Category :=
  { id := c.id
    name := c.name
    bucket := if c.bucket ∈ BUCKETS then c.bucket else str "Necessities"
    archived := c.archived }

/-- One pass of the recurring normalizer on an in-model record with an id. -/
def normRecFix (r : Recurring) : Recurring :=
  { id := r.id
    description := r.description
    default_amount_cents := max 0 r.default_amount_cents
    category_id := jsOrNull r.category_id }

/-- A transaction the normalizer leaves unchanged (and keeps). -/
def NormalTx (t : Transaction) : Prop :=
  t.id ≠ [] ∧ 0 < t.amount_cents ∧ normTxFix t = t

/-- A category the normalizer leaves unchanged. -/
def NormalCat (c : Category) : Prop := c.id ≠ [] ∧ normCatFix c = c

/-- A recurring template the normalizer leaves unchanged. -/
def NormalRec (r : Recurring) : Prop := r.id ≠ [] ∧ normRecFix r = r

/-- Settings the normalizer leaves unchanged. -/
def NormalSettings (s : Settings) : Prop := normalizeSettings (some s.toRaw) = s

/-- A store state in normal form: every record is a fixed point of its
normalizer and the transactions are sorted (`Pairwise txLe`).  This is the
shape `loadFromStorage` and the import path produce. -/
def NormalForm (st : StoreState) : Prop :=
  NormalSettings st.settings ∧
    (∀ c ∈ st.categories, NormalCat c) ∧
    (∀ t ∈ st.transactions, NormalTx t) ∧
    (∀ r ∈ st.recurring, NormalRec r) ∧
    st.transactions.Pairwise (fun a b => txLe a b = true)

/-- The transaction-collection invariant: ids are truthy and pairwise
distinct, and the list is strictly descending in `(date_iso, id)`. -/
def InvTx (l : List Transaction) : Prop :=
  (∀ t ∈ l, t.id ≠ []) ∧ (l.map Transaction.id).Nodup ∧ l.Pairwise txAfter

/-- The whole-store invariant: the in-memory and the persisted transaction
collections both satisfy `InvTx`. -/
def StoreInv (s : Store) : Prop :=
  InvTx s.state.transactions ∧ InvTx s.storage.transactions

/-- One public Store operation.  `addTx` carries the freshness of the id
`createId()` returned; `importStep` carries, for the replace strategy, the
requirement that the normalized imported transactions have truthy, pairwise
distinct ids (a payload with duplicated ids violates the sort invariant,
see the counterexample for the corresponding claim). -/
inductive Step : Store → Store → Prop
  | addTx (newId now : Str) (d : Draft) (s : Store)
      (hne : newId ≠ []) (hniq : newId ∉ s.state.transactions.map Transaction.id) :
      Step s (addTransaction newId now d s).1
  | updateTx (id0 : Str) (u : TxUpdates) (s : Store) : Step s (updateTransaction id0 u s).1
  | deleteTx (id0 : Str) (s : Store) : Step s (deleteTransaction id0 s).1
  | addCat (newId name : Str) (bucket : Option Str) (s : Store) :
      Step s (addCategory newId name bucket s).1
  | updateCat (id0 : Str) (u : CatUpdates) (s : Store) : Step s (updateCategory id0 u s).1
  | archiveCat (id0 : Str) (archived : Bool) (s : Store) :
      Step s (archiveCategory id0 archived s).1
  | addRec (newId description : Str) (amount : Int) (cid : Option Str) (s : Store) :
      Step s (addRecurring newId description amount cid s).1
  | updateRec (id0 : Str) (u : RecUpdates) (s : Store) : Step s (updateRecurring id0 u s).1
  | deleteRec (id0 : Str) (s : Store) : Step s (deleteRecurring id0 s).1
  | save (u : RawSettings) (s : Store) : Step s (saveSettings u s).1
  | resetStep (fresh : Nat → Str) (now : Str) (s : Store) : Step s (reset fresh now s)
  | initStep (fresh : Nat → Str) (now : Str) (s : Store) : Step s (Store.init fresh now s)
  | importStep (fresh : Nat → Str) (now : Str) (p : Payload) (strategy : Str) (s s' : Store)
      (hids : strategy ≠ str "merge" →
        ∀ t ∈ normalizeTransactions fresh now p.transactions, t.id ≠ [])
      (hnodup : strategy ≠ str "merge" →
        ((normalizeTransactions fresh now p.transactions).map Transaction.id).Nodup)
      (hok : importData fresh now (some p) strategy s = Except.ok s') :
      Step s s'

/-- The store as the module initializes it (`app.js` lines 184-199), with
storage holding the seeded defaults `ensureDefaults` writes. -/
def initialStore (fresh : Nat → Str) : Store :=
  { state :=
      { settings := DEFAULT_SETTINGS, categories := [], transactions := [], recurring := [] }
    storage :=
      { settings := DEFAULT_SETTINGS, categories := DEFAULT_CATEGORIES fresh,
        transactions := [], recurring := [] }
    events := [] }

/-- Stores reachable from the initial store by public operations. -/
def Reachable (fresh : Nat → Str) (s : Store) : Prop :=
  Relation.ReflTransGen Step (initialStore fresh) s

/-! ## Concrete fixtures used by witnesses and counterexamples -/

/-- A concrete id supply: `"f0"`, `"f1"`, …. -/
def exFresh (n : Nat) : Str := str ("f" ++ toString n)

/-- A concrete clock value. -/
def exNow : Str := str "2024-02-15T12:00:00.000Z"

/-- The empty store state with default settings. -/
def emptyState : StoreState :=
  { settings := DEFAULT_SETTINGS, categories := [], transactions := [], recurring := [] }

/-- The empty store. -/
def emptyStore : Store := { state := emptyState, storage := emptyState, events := [] }

/-- A draft whose amount coerces to 0. -/
def zeroDraft : Draft := { type := some (str "expense"), amount_cents := 0 }

/-- A concrete expense transaction used by pagination fixtures. -/
def exTx (i : Nat) (d : String) : Transaction :=
  { id := str ("id" ++ toString i), type := str "expense", amount_cents := 100,
    description := [], category_id := none, bucket := none, date_iso := str d }

/-- Four transactions on distinct days (pagination fixtures). -/
def exTxs4 : List Transaction :=
  [exTx 1 "2024-02-01T00:00:00.000Z", exTx 2 "2024-02-02T00:00:00.000Z",
   exTx 3 "2024-02-03T00:00:00.000Z", exTx 4 "2024-02-04T00:00:00.000Z"]

/-- A state holding `exTxs4`. -/
def exState4 : StoreState := { emptyState with transactions := exTxs4 }

/-- A transaction whose id contains the cursor delimiter `|`. -/
def pipeTx (i : Nat) (d : String) : Transaction :=
  { id := str ("a|" ++ toString i), type := str "expense", amount_cents := 100,
    description := [], category_id := none, bucket := none, date_iso := str d }

/-- A state whose transaction ids contain the cursor delimiter. -/
def pipeState : StoreState :=
  { emptyState with
      transactions := [pipeTx 1 "2024-02-01T00:00:00.000Z", pipeTx 2 "2024-02-02T00:00:00.000Z"] }

/-- A raw imported transaction with a chosen id, amount and date. -/
def exRawTx (i : String) (amount : Int) (d : String) : RawTransaction :=
  { id := some (str i), type := some (str "expense"), amount_cents := some amount,
    description := none, category_id := none, bucket := none, date_iso := some (str d) }

/-- An import payload that carries the same transaction record twice. -/
def dupPayload : Payload :=
  { schema_version := some 1,
    transactions := some [some (exRawTx "X" 100 "2024-02-01T00:00:00.000Z"),
                          some (exRawTx "X" 100 "2024-02-01T00:00:00.000Z")] }

/-- A current state with transaction ids `id10` (A) and `id11` (B). -/
def exStateAB : StoreState :=
  { emptyState with
      transactions := [exTx 10 "2024-02-05T00:00:00.000Z", exTx 11 "2024-02-06T00:00:00.000Z"] }

/-- An import payload with transaction ids `id11` (B, different field
values) and `id12` (C). -/
def payloadBC : Payload :=
  { schema_version := some 1,
    transactions := some [some (exRawTx "id11" 777 "2024-01-01T00:00:00.000Z"),
                          some (exRawTx "id12" 777 "2024-01-02T00:00:00.000Z")] }

/-- The store after adding a zero-amount draft to the empty store — a
reachable store holding a zero-amount transaction. -/
def zeroStore : Store := (addTransaction (str "t1") exNow zeroDraft emptyStore).1

/-- The income draft of the 200000/50000 scenario. -/
def incomeDraft : Draft :=
  { type := some (str "income"), amount_cents := 200000,
    date_iso := some (str "2024-02-10T10:00:00.000Z") }

/-- The Necessities expense draft of the 200000/50000 scenario. -/
def expenseDraft : Draft :=
  { type := some (str "expense"), amount_cents := 50000,
    bucket := some (str "Necessities"), date_iso := some (str "2024-02-11T10:00:00.000Z") }

/-- The store of the 200000/50000 scenario. -/
def scenarioStore : Store :=
  (addTransaction (str "t2") exNow expenseDraft
    ((addTransaction (str "t1") exNow incomeDraft emptyStore).1)).1

/-- A timestamp half an hour before a UTC month boundary (end of February
2024); at UTC+2 the local calendar already reads March 1. -/
def boundaryIso : Str := str "2024-02-29T23:30:00.000Z"

/-- The store holding `exStateAB`. -/
def storeAB : Store := { state := exStateAB, storage := exStateAB, events := [] }

/-- `exTxs4` in descending sort order (a normal-form collection). -/
def exState4Desc : StoreState :=
  { emptyState with
      transactions := [exTx 4 "2024-02-04T00:00:00.000Z", exTx 3 "2024-02-03T00:00:00.000Z",
                       exTx 2 "2024-02-02T00:00:00.000Z", exTx 1 "2024-02-01T00:00:00.000Z"] }

/-- The store holding `exState4Desc`. -/
def store4Desc : Store := { state := exState4Desc, storage := exState4Desc, events := [] }

/-- The store holding `exState4`. -/
def store4 : Store := { state := exState4, storage := exState4, events := [] }

/-- A payload exercising every normalizer default: missing and invalid
fields, a non-object entry, a zero-amount transaction, a falsy id. -/
def messyPayload : Payload :=
  { schema_version := some 1,
    settings := some
      { currency := none, locale := some (str "fr-FR"),
        rule := some { necessities := some 40, leisure := none, savings := some 20 },
        firstDayOfWeek := some 3, showAdvancedCharts := some true,
        hapticFeedback := none, schema_version := some 7 },
    categories := some
      [some { id := some (str "c1"), name := none, bucket := some (str "Nope"),
              archived := none }, none],
    recurring := some
      [some { id := some [], description := some (str " hi"),
              default_amount_cents := some (-5), category_id := some [] }],
    transactions := some
      [some (exRawTx "T1" 500 "2024-01-05T00:00:00.000Z"),
       some (exRawTx "T2" 0 "2024-01-06T00:00:00.000Z"), none] }

/-- The normalized form of the duplicated record of `dupPayload`. -/
def dupTxNorm : Transaction :=
  { id := str "X", type := str "expense", amount_cents := 100, description := [],
    category_id := none, bucket := none, date_iso := str "2024-02-01T00:00:00.000Z" }

/-! ## Lemmas about the lexicographic comparison -/

theorem charCmp_eq_iff {a b : Char} : charCmp a b = Ordering.eq ↔ a = b := by
  unfold charCmp
  rcases lt_trichotomy a b with h | h | h
  · simp [h, h.ne]
  · subst h
    simp
  · simp [asymm h, h, h.ne']

theorem charCmp_lt_iff {a b : Char} : charCmp a b = Ordering.lt ↔ a < b := by
  unfold charCmp
  rcases lt_trichotomy a b with h | h | h
  · simp [h]
  · subst h
    simp
  · simp [asymm h, h]

theorem charCmp_gt_iff {a b : Char} : charCmp a b = Ordering.gt ↔ b < a := by
  unfold charCmp
  rcases lt_trichotomy a b with h | h | h
  · simp [h, asymm h]
  · subst h
    simp
  · simp [asymm h, h]

theorem lexCmp_eq_iff : ∀ {s t : Str}, lexCmp s t = Ordering.eq ↔ s = t
  | [], [] => by simp [lexCmp]
  | [], _ :: _ => by simp [lexCmp]
  | _ :: _, [] => by simp [lexCmp]
  | a :: as, b :: bs => by
    rw [lexCmp]
    rcases lt_trichotomy a b with h | h | h
    · rw [charCmp_lt_iff.mpr h]
      simp [h.ne]
    · subst h
      rw [charCmp_eq_iff.mpr rfl]
      simp [lexCmp_eq_iff]
    · rw [charCmp_gt_iff.mpr h]
      simp [h.ne']

theorem lexCmp_self {s : Str} : lexCmp s s = Ordering.eq := lexCmp_eq_iff.mpr rfl

theorem lexCmp_gt_iff_lt : ∀ {s t : Str}, lexCmp s t = Ordering.gt ↔ lexCmp t s = Ordering.lt
  | [], [] => by simp [lexCmp]
  | [], _ :: _ => by simp [lexCmp]
  | _ :: _, [] => by simp [lexCmp]
  | a :: as, b :: bs => by
    rw [lexCmp, lexCmp]
    rcases lt_trichotomy a b with h | h | h
    · rw [charCmp_lt_iff.mpr h, charCmp_gt_iff.mpr h]
      simp
    · subst h
      rw [charCmp_eq_iff.mpr rfl]
      simpa using lexCmp_gt_iff_lt
    · rw [charCmp_gt_iff.mpr h, charCmp_lt_iff.mpr h]
      simp

theorem lexCmp_lt_trans : ∀ {s t u : Str}, lexCmp s t = Ordering.lt →
    lexCmp t u = Ordering.lt → lexCmp s u = Ordering.lt
  | [], [], _, h₁, _ => by simp [lexCmp] at h₁
  | [], _ :: _, [], _, h₂ => by simp [lexCmp] at h₂
  | [], _ :: _, _ :: _, _, _ => by simp [lexCmp]
  | _ :: _, [], _, h₁, _ => by simp [lexCmp] at h₁
  | _ :: _, _ :: _, [], _, h₂ => by simp [lexCmp] at h₂
  | a :: as, b :: bs, c :: cs, h₁, h₂ => by
    rw [lexCmp] at h₁ h₂ ⊢
    rcases lt_trichotomy a b with hab | hab | hab
    · rcases lt_trichotomy b c with hbc | hbc | hbc
      · rw [charCmp_lt_iff.mpr (hab.trans hbc)]
      · subst hbc
        rw [charCmp_lt_iff.mpr hab]
      · rw [charCmp_gt_iff.mpr hbc] at h₂
        exact absurd h₂ (by simp)
    · subst hab
      rw [charCmp_eq_iff.mpr rfl] at h₁
      rcases lt_trichotomy a c with hac | hac | hac
      · rw [charCmp_lt_iff.mpr hac]
      · subst hac
        rw [charCmp_eq_iff.mpr rfl] at h₂ ⊢
        exact lexCmp_lt_trans h₁ h₂
      · rw [charCmp_gt_iff.mpr hac] at h₂
        exact absurd h₂ (by simp)
    · rw [charCmp_gt_iff.mpr hab] at h₁
      exact absurd h₁ (by simp)

/-! ## Lemmas about the transaction comparator -/

theorem cmpDesc_lt_iff {a b : Transaction} :
    compareTransactionsDesc a b = Ordering.lt ↔ txAfter a b := by
  unfold compareTransactionsDesc txAfter strGt
  by_cases h : a.date_iso = b.date_iso
  · rw [if_neg (by simp [h])]
    constructor
    · intro hlt
      exact Or.inr ⟨h, lexCmp_gt_iff_lt.mpr hlt⟩
    · rintro (hgt | ⟨_, hgt⟩)
      · rw [h, lexCmp_self] at hgt
        cases hgt
      · exact lexCmp_gt_iff_lt.mp hgt
  · rw [if_pos (by simpa using h)]
    constructor
    · intro hlt
      exact Or.inl (lexCmp_gt_iff_lt.mpr hlt)
    · rintro (hgt | ⟨heq, _⟩)
      · exact lexCmp_gt_iff_lt.mp hgt
      · exact absurd heq h

theorem cmpDesc_eq_iff {a b : Transaction} :
    compareTransactionsDesc a b = Ordering.eq ↔ txKey a = txKey b := by
  unfold compareTransactionsDesc txKey
  by_cases h : a.date_iso = b.date_iso
  · rw [if_neg (by simp [h]), lexCmp_eq_iff]
    constructor
    · intro hid
      rw [h, hid]
    · intro hk
      exact (congrArg Prod.snd hk).symm
  · rw [if_pos (by simpa using h), lexCmp_eq_iff]
    constructor
    · intro hd
      exact absurd hd.symm h
    · intro hk
      exact absurd (congrArg Prod.fst hk) h

theorem cmpDesc_gt_iff {a b : Transaction} :
    compareTransactionsDesc a b = Ordering.gt ↔ txAfter b a := by
  have : compareTransactionsDesc a b = Ordering.gt ↔ compareTransactionsDesc b a = Ordering.lt := by
    unfold compareTransactionsDesc
    by_cases h : a.date_iso = b.date_iso
    · simp [h, lexCmp_gt_iff_lt]
    · simp [h, Ne.symm h, lexCmp_gt_iff_lt]
  rw [this, cmpDesc_lt_iff]

theorem txAfter_irrefl {a : Transaction} : ¬ txAfter a a := by
  unfold txAfter strGt
  rintro (h | ⟨_, h⟩) <;> rw [lexCmp_self] at h <;> cases h

theorem txAfter_key_congr {a b a' b' : Transaction} (ha : txKey a = txKey a')
    (hb : txKey b = txKey b') (h : txAfter a b) : txAfter a' b' := by
  unfold txKey at ha hb
  unfold txAfter at h ⊢
  have ha1 := congrArg Prod.fst ha
  have ha2 := congrArg Prod.snd ha
  have hb1 := congrArg Prod.fst hb
  have hb2 := congrArg Prod.snd hb
  simp only at ha1 ha2 hb1 hb2
  rw [← ha1, ← ha2, ← hb1, ← hb2]
  exact h

theorem txAfter_trans {a b c : Transaction} (h₁ : txAfter a b) (h₂ : txAfter b c) :
    txAfter a c := by
  unfold txAfter strGt at h₁ h₂ ⊢
  have lift : ∀ {x y : Str}, lexCmp x y = Ordering.gt → lexCmp y x = Ordering.lt :=
    fun h => lexCmp_gt_iff_lt.mp h
  rcases h₁ with h₁ | ⟨hd₁, h₁⟩ <;> rcases h₂ with h₂ | ⟨hd₂, h₂⟩
  · exact Or.inl (lexCmp_gt_iff_lt.mpr (lexCmp_lt_trans (lift h₂) (lift h₁)))
  · exact Or.inl (hd₂ ▸ h₁)
  · exact Or.inl (hd₁ ▸ h₂)
  · exact Or.inr ⟨hd₁.trans hd₂, lexCmp_gt_iff_lt.mpr (lexCmp_lt_trans (lift h₂) (lift h₁))⟩

theorem txAfter_asymm {a b : Transaction} (h : txAfter a b) : ¬ txAfter b a :=
  fun h' => txAfter_irrefl (txAfter_trans h h')

theorem txAfter_trichotomy (a b : Transaction) :
    txAfter a b ∨ txKey a = txKey b ∨ txAfter b a := by
  rcases ho : compareTransactionsDesc a b with h | h | h
  · exact Or.inl (cmpDesc_lt_iff.mp ho)
  · exact Or.inr (Or.inl (cmpDesc_eq_iff.mp ho))
  · exact Or.inr (Or.inr (cmpDesc_gt_iff.mp ho))

theorem txLe_eq_true_iff {a b : Transaction} : txLe a b = true ↔ ¬ txAfter b a := by
  unfold txLe
  rcases ho : compareTransactionsDesc a b with h | h | h
  · simp [cmpDesc_lt_iff.mp ho, txAfter_asymm (cmpDesc_lt_iff.mp ho)]
  · have hk := cmpDesc_eq_iff.mp ho
    simp only [true_iff]
    intro hba
    exact txAfter_irrefl (txAfter_key_congr hk.symm rfl hba)
  · simp [cmpDesc_gt_iff.mp ho]

theorem txLe_total_bool (a b : Transaction) : (txLe a b || txLe b a) = true := by
  rcases txAfter_trichotomy a b with h | h | h
  · simp [txLe_eq_true_iff.mpr (txAfter_asymm h)]
  · have : txLe a b = true := txLe_eq_true_iff.mpr (fun hba =>
      txAfter_irrefl (txAfter_key_congr h.symm rfl hba))
    simp [this]
  · have : txLe b a = true := txLe_eq_true_iff.mpr (txAfter_asymm h)
    simp [this]

theorem txLe_trans_bool (a b c : Transaction) (h₁ : txLe a b = true) (h₂ : txLe b c = true) :
    txLe a c = true := by
  rw [txLe_eq_true_iff] at h₁ h₂ ⊢
  intro hca
  rcases txAfter_trichotomy a b with hab | hab | hab
  · rcases txAfter_trichotomy b c with hbc | hbc | hbc
    · exact txAfter_asymm (txAfter_trans hab hbc) hca
    · exact h₁ (txAfter_key_congr hbc.symm rfl hca)
    · exact h₂ hbc
  · exact h₂ (txAfter_key_congr rfl hab hca)
  · exact h₁ hab

/-! ## Sorting lemmas -/

theorem sortTx_perm (l : List Transaction) : (sortTx l).Perm l :=
  List.perm_insertionSort _ l

theorem sortTx_sorted (l : List Transaction) :
    (sortTx l).Pairwise (fun a b => txLe a b = true) := by
  haveI : IsTotal Transaction (fun a b => txLe a b = true) :=
    ⟨fun a b => by simpa [Bool.or_eq_true] using txLe_total_bool a b⟩
  haveI : IsTrans Transaction (fun a b => txLe a b = true) :=
    ⟨txLe_trans_bool⟩
  exact List.sorted_insertionSort _ l

theorem keysNodup_sortTx {l : List Transaction} (h : (l.map txKey).Nodup) :
    ((sortTx l).map txKey).Nodup :=
  (((sortTx_perm l).map txKey).nodup_iff).mpr h

theorem pairwise_txAfter_of_sorted_nodup {l : List Transaction}
    (hs : l.Pairwise (fun a b => txLe a b = true)) (hk : (l.map txKey).Nodup) :
    l.Pairwise txAfter := by
  have hne : l.Pairwise (fun a b => txKey a ≠ txKey b) := List.pairwise_map.mp hk
  refine (hs.and hne).imp ?_
  rintro a b ⟨hle, hne'⟩
  rcases txAfter_trichotomy a b with h | h | h
  · exact h
  · exact absurd h hne'
  · exact absurd h (txLe_eq_true_iff.mp hle)

theorem sortTx_pairwise_txAfter {l : List Transaction} (hk : (l.map txKey).Nodup) :
    (sortTx l).Pairwise txAfter :=
  pairwise_txAfter_of_sorted_nodup (sortTx_sorted l) (keysNodup_sortTx hk)

theorem keysNodup_of_idsNodup {l : List Transaction} (h : (l.map Transaction.id).Nodup) :
    (l.map txKey).Nodup := by
  refine List.pairwise_map.mpr ((List.pairwise_map.mp h).imp ?_)
  intro a b hab hk
  exact hab (congrArg Prod.snd hk)

theorem pairwise_txAfter_le {l : List Transaction} (h : l.Pairwise txAfter) :
    l.Pairwise (fun a b => txLe a b = true) :=
  h.imp (fun hab => txLe_eq_true_iff.mpr (txAfter_asymm hab))

theorem idsNodup_sortTx {l : List Transaction} (h : (l.map Transaction.id).Nodup) :
    ((sortTx l).map Transaction.id).Nodup :=
  (((sortTx_perm l).map Transaction.id).nodup_iff).mpr h

theorem sortTx_of_sorted {l : List Transaction}
    (h : l.Pairwise (fun a b => txLe a b = true)) : sortTx l = l :=
  List.Sorted.insertionSort_eq h

/-! ## Deduplication lemmas -/

theorem dedupeGo_sublist (getId : α → Str) : ∀ (seen : List Str) (l : List α),
    (dedupeByIdGo getId seen l).Sublist l
  | _, [] => List.Sublist.refl _
  | seen, x :: xs => by
    rw [dedupeByIdGo]
    split
    · exact (dedupeGo_sublist getId seen xs).cons x
    · split
      · exact (dedupeGo_sublist getId seen xs).cons x
      · exact (dedupeGo_sublist getId _ xs).cons₂ x

theorem dedupeGo_mem_props (getId : α → Str) : ∀ (seen : List Str) (l : List α) (x : α),
    x ∈ dedupeByIdGo getId seen l → ¬(getId x).isEmpty ∧ getId x ∉ seen
  | seen, [], x, hx => by simp [dedupeByIdGo] at hx
  | seen, y :: ys, x, hx => by
    rw [dedupeByIdGo] at hx
    by_cases h1 : (getId y).isEmpty
    · rw [if_pos h1] at hx
      exact dedupeGo_mem_props getId seen ys x hx
    · rw [if_neg h1] at hx
      by_cases h2 : getId y ∈ seen
      · rw [if_pos h2] at hx
        exact dedupeGo_mem_props getId seen ys x hx
      · rw [if_neg h2] at hx
        rcases List.mem_cons.mp hx with rfl | hx'
        · exact ⟨h1, h2⟩
        · have := dedupeGo_mem_props getId (getId y :: seen) ys x hx'
          exact ⟨this.1, fun hmem => this.2 (List.mem_cons_of_mem _ hmem)⟩

theorem dedupeGo_ids_nodup (getId : α → Str) : ∀ (seen : List Str) (l : List α),
    ((dedupeByIdGo getId seen l).map getId).Nodup
  | _, [] => by simp [dedupeByIdGo]
  | seen, y :: ys => by
    rw [dedupeByIdGo]
    split
    · exact dedupeGo_ids_nodup getId seen ys
    · split
      · exact dedupeGo_ids_nodup getId seen ys
      · rw [List.map_cons]
        refine List.nodup_cons.mpr ⟨?_, dedupeGo_ids_nodup getId _ ys⟩
        intro hmem
        obtain ⟨x, hx, hxid⟩ := List.mem_map.mp hmem
        have hprops := (dedupeGo_mem_props getId _ ys x hx).2
        refine hprops ?_
        rw [hxid]
        exact List.mem_cons_self _ _

theorem dedupeGo_congr_seen (getId : α → Str) : ∀ (seen₁ seen₂ : List Str),
    (∀ a, a ∈ seen₁ ↔ a ∈ seen₂) →
    ∀ l, dedupeByIdGo getId seen₁ l = dedupeByIdGo getId seen₂ l
  | _, _, _, [] => rfl
  | seen₁, seen₂, hseen, y :: ys => by
    rw [dedupeByIdGo, dedupeByIdGo]
    by_cases h1 : (getId y).isEmpty
    · rw [if_pos h1, if_pos h1]
      exact dedupeGo_congr_seen getId seen₁ seen₂ hseen ys
    · rw [if_neg h1, if_neg h1]
      by_cases h2 : getId y ∈ seen₁
      · rw [if_pos h2, if_pos ((hseen _).mp h2)]
        exact dedupeGo_congr_seen getId seen₁ seen₂ hseen ys
      · rw [if_neg h2, if_neg (fun hh => h2 ((hseen _).mpr hh))]
        rw [dedupeGo_congr_seen getId (getId y :: seen₁) (getId y :: seen₂)
          (fun a => by simp [hseen a]) ys]

theorem dedupeGo_append (getId : α → Str) : ∀ (seen : List Str) (l₁ l₂ : List α),
    (∀ x ∈ l₁, ¬(getId x).isEmpty ∧ getId x ∉ seen) → (l₁.map getId).Nodup →
    dedupeByIdGo getId seen (l₁ ++ l₂) =
      l₁ ++ dedupeByIdGo getId (l₁.map getId ++ seen) l₂
  | seen, [], l₂, _, _ => by simp
  | seen, y :: ys, l₂, hcond, hnodup => by
    have hy := hcond y (List.mem_cons_self _ _)
    rw [List.cons_append, dedupeByIdGo, if_neg hy.1, if_neg hy.2]
    have htail : ∀ x ∈ ys, ¬(getId x).isEmpty ∧ getId x ∉ (getId y :: seen) := by
      intro x hx
      have hc := hcond x (List.mem_cons_of_mem _ hx)
      have hne : getId x ≠ getId y := by
        intro he
        have : getId y ∈ ys.map getId := by
          rw [← he]
          exact List.mem_map_of_mem getId hx
        exact (List.nodup_cons.mp hnodup).1 this
      exact ⟨hc.1, by simp [hc.2, hne]⟩
    rw [dedupeGo_append getId (getId y :: seen) ys l₂ htail (List.nodup_cons.mp hnodup).2]
    rw [dedupeGo_congr_seen getId (ys.map getId ++ (getId y :: seen))
      ((y :: ys).map getId ++ seen)
      (fun a => by
        simp only [List.mem_append, List.map_cons, List.mem_cons]
        tauto) l₂]
    simp

theorem dedupeById_append (getId : α → Str) (l₁ l₂ : List α)
    (hids : ∀ x ∈ l₁, ¬(getId x).isEmpty) (hnd : (l₁.map getId).Nodup) :
    dedupeById getId (l₁ ++ l₂) = l₁ ++ dedupeByIdGo getId (l₁.map getId) l₂ := by
  unfold dedupeById
  rw [dedupeGo_append getId [] l₁ l₂ (fun x hx => ⟨hids x hx, by simp⟩) hnd]
  rw [dedupeGo_congr_seen getId (l₁.map getId ++ []) (l₁.map getId) (fun a => by simp) l₂]

theorem dedupeGo_covers (getId : α → Str) : ∀ (seen : List Str) (l : List α) (y : α),
    y ∈ l → ¬(getId y).isEmpty →
    getId y ∈ seen ∨ getId y ∈ (dedupeByIdGo getId seen l).map getId
  | seen, [], y, hy, _ => by simp at hy
  | seen, z :: zs, y, hy, hne => by
    rw [dedupeByIdGo]
    by_cases h1 : (getId z).isEmpty
    · rw [if_pos h1]
      rcases List.mem_cons.mp hy with rfl | hy'
      · exact absurd h1 hne
      · exact dedupeGo_covers getId seen zs y hy' hne
    · rw [if_neg h1]
      by_cases h2 : getId z ∈ seen
      · rw [if_pos h2]
        rcases List.mem_cons.mp hy with rfl | hy'
        · exact Or.inl h2
        · exact dedupeGo_covers getId seen zs y hy' hne
      · rw [if_neg h2]
        rcases List.mem_cons.mp hy with rfl | hy'
        · exact Or.inr (by simp)
        · rcases dedupeGo_covers getId (getId z :: seen) zs y hy' hne with hin | hin
          · rcases List.mem_cons.mp hin with he | hin'
            · exact Or.inr (by simp [he])
            · exact Or.inl hin'
          · exact Or.inr (by simp [hin])

/-! ## Normalizer lemmas -/

theorem mapWithIndex_eq_map {f : Nat → α → β} {g : α → β} :
    ∀ (l : List α), (∀ i x, x ∈ l → f i x = g x) → ∀ i, mapWithIndex f i l = l.map g
  | [], _, _ => rfl
  | x :: xs, h, i => by
    rw [mapWithIndex, List.map_cons, h i x (List.mem_cons_self _ _),
      mapWithIndex_eq_map xs (fun j y hy => h j y (List.mem_cons_of_mem _ hy)) (i + 1)]

theorem mapWithIndex_mem {f : Nat → α → β} :
    ∀ {l : List α} {i : Nat} {y : β}, y ∈ mapWithIndex f i l → ∃ j x, x ∈ l ∧ y = f j x := by
  intro l
  induction l with
  | nil => intro i y hy; simp [mapWithIndex] at hy
  | cons x xs ih =>
    intro i y hy
    rw [mapWithIndex] at hy
    rcases List.mem_cons.mp hy with rfl | hy'
    · exact ⟨i, x, List.mem_cons_self _ _, rfl⟩
    · obtain ⟨j, z, hz, he⟩ := ih hy'
      exact ⟨j, z, List.mem_cons_of_mem _ hz, he⟩

theorem jsOrStr_ne_nil {v : Option Str} {fb : Str} (hfb : fb ≠ []) : jsOrStr v fb ≠ [] := by
  cases v with
  | none => simpa [jsOrStr] using hfb
  | some s =>
    by_cases h : s.isEmpty
    · simpa [jsOrStr, h] using hfb
    · simp only [jsOrStr, if_neg h]
      intro he
      rw [he] at h
      exact h rfl

theorem jsOrNull_idem (v : Option Str) : jsOrNull (jsOrNull v) = jsOrNull v := by
  cases v with
  | none => rfl
  | some s =>
    by_cases h : s.isEmpty
    · simp [jsOrNull, h]
    · simp [jsOrNull, h]

theorem filterMap_id_map_some (l : List α) (g : α → β) :
    List.filterMap id (l.map (fun x => some (g x))) = l.map g := by
  induction l with
  | nil => rfl
  | cons x xs ih => simp [List.filterMap_cons, ih]

theorem normalizeTransactionRecord_toRaw (fresh : Nat → Str) (now : Str) (i : Nat)
    {t : Transaction} (hid : t.id ≠ []) :
    normalizeTransactionRecord fresh now i t.toRaw = normTxFix t := by
  have hne : ¬(t.id.isEmpty = true) := by simpa [List.isEmpty_iff] using hid
  unfold normalizeTransactionRecord Transaction.toRaw normTxFix
  simp only [jsOrStr, if_neg hne, Option.getD_some, Option.some.injEq]

theorem mapWithIndex_toRaw_tx (fresh : Nat → Str) (now : Str) :
    ∀ (l : List Transaction), (∀ t ∈ l, t.id ≠ []) → ∀ i,
    mapWithIndex (normalizeTransactionRecord fresh now) i (l.map Transaction.toRaw) =
      l.map normTxFix
  | [], _, _ => rfl
  | t :: ts, h, i => by
    rw [List.map_cons, mapWithIndex,
      normalizeTransactionRecord_toRaw fresh now i (h t (List.mem_cons_self _ _)),
      List.map_cons,
      mapWithIndex_toRaw_tx fresh now ts (fun x hx => h x (List.mem_cons_of_mem _ hx)) (i + 1)]

theorem normalizeTransactions_toRaw (fresh : Nat → Str) (now : Str) {l : List Transaction}
    (hids : ∀ t ∈ l, t.id ≠ []) :
    normalizeTransactions fresh now (some (l.map (fun t => some t.toRaw))) =
      (l.map normTxFix).filter (fun t => 0 < t.amount_cents) := by
  unfold normalizeTransactions
  simp only
  rw [show (l.map (fun t => some t.toRaw)) = (l.map (fun t => some (Transaction.toRaw t))) from rfl,
    filterMap_id_map_some l Transaction.toRaw, mapWithIndex_toRaw_tx fresh now l hids 0]

theorem normTxFix_record (fresh : Nat → Str) (now : Str) (i : Nat) (raw : RawTransaction) :
    normTxFix (normalizeTransactionRecord fresh now i raw) =
      normalizeTransactionRecord fresh now i raw := by
  have hmax : ∀ n : Int, max 0 (max 0 n) = max 0 n := fun n => by rw [← max_assoc, max_self]
  unfold normTxFix normalizeTransactionRecord
  ext : 1
  · rfl
  · by_cases hc : raw.type = some (str "income") <;> simp [hc]
    decide
  · cases raw.amount_cents <;> simp [hmax]
  · rfl
  · exact jsOrNull_idem raw.category_id
  · rcases raw.bucket with _ | b
    · rfl
    · by_cases hb : b ∈ BUCKETS <;> simp [hb]
  · rfl

theorem normalizeTransactions_mem (fresh : Nat → Str) (now : Str)
    (x : Option (List (Option RawTransaction))) (hf : ∀ n, fresh n ≠ []) :
    ∀ t ∈ normalizeTransactions fresh now x, NormalTx t := by
  intro t ht
  unfold normalizeTransactions at ht
  match x with
  | none => simp at ht
  | some l =>
    simp only at ht
    have hpos := List.of_mem_filter ht
    have ht' := List.mem_of_mem_filter ht
    obtain ⟨j, rawtx, _, he⟩ := mapWithIndex_mem ht'
    subst he
    exact ⟨jsOrStr_ne_nil (hf j), by simpa using hpos, normTxFix_record fresh now j rawtx⟩

theorem normalizeCategoryRecord_toRaw (fresh : Nat → Str) (i : Nat)
    {c : Category} (hid : c.id ≠ []) :
    normalizeCategoryRecord fresh i c.toRaw = normCatFix c := by
  have hne : ¬(c.id.isEmpty = true) := by simpa [List.isEmpty_iff] using hid
  unfold normalizeCategoryRecord Category.toRaw normCatFix
  simp only [jsOrStr, if_neg hne, Option.getD_some]

theorem mapWithIndex_toRaw_cat (fresh : Nat → Str) :
    ∀ (l : List Category), (∀ c ∈ l, c.id ≠ []) → ∀ i,
    mapWithIndex (normalizeCategoryRecord fresh) i (l.map Category.toRaw) = l.map normCatFix
  | [], _, _ => rfl
  | c :: cs, h, i => by
    rw [List.map_cons, mapWithIndex,
      normalizeCategoryRecord_toRaw fresh i (h c (List.mem_cons_self _ _)), List.map_cons,
      mapWithIndex_toRaw_cat fresh cs (fun x hx => h x (List.mem_cons_of_mem _ hx)) (i + 1)]

theorem normalizeCategories_toRaw (fresh : Nat → Str) {l : List Category}
    (hids : ∀ c ∈ l, c.id ≠ []) :
    normalizeCategories fresh (some (l.map (fun c => some c.toRaw))) = l.map normCatFix := by
  unfold normalizeCategories
  simp only
  rw [show (l.map (fun c => some c.toRaw)) = (l.map (fun c => some (Category.toRaw c))) from rfl,
    filterMap_id_map_some l Category.toRaw, mapWithIndex_toRaw_cat fresh l hids 0]

theorem normCatFix_record (fresh : Nat → Str) (i : Nat) (raw : RawCategory) :
    normCatFix (normalizeCategoryRecord fresh i raw) = normalizeCategoryRecord fresh i raw := by
  unfold normCatFix normalizeCategoryRecord
  ext : 1
  · rfl
  · rfl
  · by_cases hb : raw.bucket.getD [] ∈ BUCKETS <;> simp [hb]
  · rfl

theorem normalizeCategories_mem (fresh : Nat → Str)
    (x : Option (List (Option RawCategory))) (hf : ∀ n, fresh n ≠ []) :
    ∀ c ∈ normalizeCategories fresh x, NormalCat c := by
  intro c hc
  unfold normalizeCategories at hc
  match x with
  | none => simp at hc
  | some l =>
    simp only at hc
    obtain ⟨j, raw, _, he⟩ := mapWithIndex_mem hc
    subst he
    exact ⟨jsOrStr_ne_nil (hf j), normCatFix_record fresh j raw⟩

theorem normalizeRecurringRecord_toRaw (fresh : Nat → Str) (i : Nat)
    {r : Recurring} (hid : r.id ≠ []) :
    normalizeRecurringRecord fresh i r.toRaw = normRecFix r := by
  have hne : ¬(r.id.isEmpty = true) := by simpa [List.isEmpty_iff] using hid
  unfold normalizeRecurringRecord Recurring.toRaw normRecFix
  simp only [jsOrStr, if_neg hne, Option.getD_some]

theorem mapWithIndex_toRaw_rec (fresh : Nat → Str) :
    ∀ (l : List Recurring), (∀ r ∈ l, r.id ≠ []) → ∀ i,
    mapWithIndex (normalizeRecurringRecord fresh) i (l.map Recurring.toRaw) = l.map normRecFix
  | [], _, _ => rfl
  | r :: rs, h, i => by
    rw [List.map_cons, mapWithIndex,
      normalizeRecurringRecord_toRaw fresh i (h r (List.mem_cons_self _ _)), List.map_cons,
      mapWithIndex_toRaw_rec fresh rs (fun x hx => h x (List.mem_cons_of_mem _ hx)) (i + 1)]

theorem normalizeRecurring_toRaw (fresh : Nat → Str) {l : List Recurring}
    (hids : ∀ r ∈ l, r.id ≠ []) :
    normalizeRecurring fresh (some (l.map (fun r => some r.toRaw))) = l.map normRecFix := by
  unfold normalizeRecurring
  simp only
  rw [show (l.map (fun r => some r.toRaw)) = (l.map (fun r => some (Recurring.toRaw r))) from rfl,
    filterMap_id_map_some l Recurring.toRaw, mapWithIndex_toRaw_rec fresh l hids 0]

theorem normRecFix_record (fresh : Nat → Str) (i : Nat) (raw : RawRecurring) :
    normRecFix (normalizeRecurringRecord fresh i raw) = normalizeRecurringRecord fresh i raw := by
  have hmax : ∀ n : Int, max 0 (max 0 n) = max 0 n := fun n => by rw [← max_assoc, max_self]
  unfold normRecFix normalizeRecurringRecord
  ext : 1
  · rfl
  · rfl
  · cases raw.default_amount_cents <;> simp [hmax]
  · exact jsOrNull_idem raw.category_id

theorem normalizeRecurring_mem (fresh : Nat → Str)
    (x : Option (List (Option RawRecurring))) (hf : ∀ n, fresh n ≠ []) :
    ∀ r ∈ normalizeRecurring fresh x, NormalRec r := by
  intro r hr
  unfold normalizeRecurring at hr
  match x with
  | none => simp at hr
  | some l =>
    simp only at hr
    obtain ⟨j, raw, _, he⟩ := mapWithIndex_mem hr
    subst he
    exact ⟨jsOrStr_ne_nil (hf j), normRecFix_record fresh j raw⟩

theorem normalizeSettings_normal (raw : Option RawSettings) :
    NormalSettings (normalizeSettings raw) := by
  unfold NormalSettings normalizeSettings Settings.toRaw Rule.toRaw
  ext : 1
  · rfl
  · rfl
  · rfl
  · simp only [Option.some_bind, Option.getD_some]
    split
    · simp
    · simp
  · rfl
  · rfl
  · rfl

theorem normalizeTransactions_of_normal (fresh : Nat → Str) (now : Str) {l : List Transaction}
    (h : ∀ t ∈ l, NormalTx t) :
    normalizeTransactions fresh now (some (l.map (fun t => some t.toRaw))) = l := by
  rw [normalizeTransactions_toRaw fresh now (fun t ht => (h t ht).1)]
  rw [List.map_congr_left (fun t ht => (h t ht).2.2), List.map_id']
  rw [List.filter_eq_self.mpr (fun t ht => by simpa using (h t ht).2.1)]

theorem normalizeCategories_of_normal (fresh : Nat → Str) {l : List Category}
    (h : ∀ c ∈ l, NormalCat c) :
    normalizeCategories fresh (some (l.map (fun c => some c.toRaw))) = l := by
  rw [normalizeCategories_toRaw fresh (fun c hc => (h c hc).1)]
  rw [List.map_congr_left (fun c hc => (h c hc).2), List.map_id']

theorem normalizeRecurring_of_normal (fresh : Nat → Str) {l : List Recurring}
    (h : ∀ r ∈ l, NormalRec r) :
    normalizeRecurring fresh (some (l.map (fun r => some r.toRaw))) = l := by
  rw [normalizeRecurring_toRaw fresh (fun r hr => (h r hr).1)]
  rw [List.map_congr_left (fun r hr => (h r hr).2), List.map_id']

/-! ## Pagination lemmas -/

theorem intercalate_pair (x : Char) (d i : Str) : [x].intercalate [d, i] = d ++ x :: i := by
  simp [List.intercalate, List.intersperse]

theorem splitOn_encode {d i : Str} (hd : '|' ∉ d) (hi : '|' ∉ i) :
    (d ++ '|' :: i).splitOn '|' = [d, i] := by
  have he : d ++ '|' :: i = List.intercalate ['|'] [d, i] := (intercalate_pair '|' d i).symm
  rw [he]
  refine List.splitOn_intercalate [d, i] '|' ?_ (by simp)
  intro l hl
  rcases List.mem_cons.mp hl with rfl | hl'
  · exact hd
  · rcases List.mem_cons.mp hl' with rfl | hl''
    · exact hi
    · simp at hl''

theorem encodeCursor_not_empty (t : Transaction) : (encodeCursor t).isEmpty = false := by
  unfold encodeCursor
  rcases h : t.date_iso with _ | ⟨c, cs⟩ <;> rfl

theorem txKey_getElem_ne {S : List Transaction} (hk : (S.map txKey).Nodup) {k j : Nat}
    (hkl : k < S.length) (hjl : j < S.length) (hne : k ≠ j) : txKey S[k] ≠ txKey S[j] := by
  have hp := List.pairwise_iff_getElem.mp hk
  have hlen : (S.map txKey).length = S.length := List.length_map S txKey
  rcases Nat.lt_or_ge k j with h | h
  · have := hp k j (by omega) (by omega) h
    simpa using this
  · have hj' : j < k := by omega
    have := hp j k (by omega) (by omega) hj'
    simp only [List.getElem_map] at this
    exact fun he => this he.symm

theorem startIndexOf_encode {S : List Transaction} (hk : (S.map txKey).Nodup)
    (hfree : ∀ t ∈ S, '|' ∉ t.date_iso ∧ '|' ∉ t.id) {j : Nat} (hj : j < S.length) :
    startIndexOf S (some (encodeCursor S[j])) = j + 1 := by
  have hmem : S[j] ∈ S := List.getElem_mem hj
  have hsplit : (encodeCursor S[j]).splitOn '|' = [S[j].date_iso, S[j].id] :=
    splitOn_encode (hfree _ hmem).1 (hfree _ hmem).2
  unfold startIndexOf
  dsimp only
  rw [if_neg (by simp [encodeCursor_not_empty])]
  simp only [hsplit, List.headD_cons]
  have hpq : (fun tx : Transaction =>
      tx.date_iso == S[j].date_iso && ([S[j].date_iso, S[j].id][1]? == some tx.id)) =
      (fun tx : Transaction => tx.date_iso == S[j].date_iso && S[j].id == tx.id) := by
    funext tx
    simp
  have hfind : S.findIdx (fun tx =>
      tx.date_iso == S[j].date_iso && ([S[j].date_iso, S[j].id][1]? == some tx.id)) = j := by
    rw [hpq]
    refine (List.findIdx_eq hj).mpr ⟨by simp, ?_⟩
    intro k hkj
    have hkl : k < S.length := by omega
    rw [Bool.eq_false_iff]
    intro hp
    rw [Bool.and_eq_true, beq_iff_eq, beq_iff_eq] at hp
    refine txKey_getElem_ne hk hkl hj (by omega) ?_
    unfold txKey
    rw [hp.1, hp.2]
  rw [hfind, if_pos hj]

theorem getRecent_items (st : StoreState) (limit : Nat) (cursor : Option Str) :
    (getRecentTransactions st limit cursor).items =
      ((sortTx st.transactions).drop
        (startIndexOf (sortTx st.transactions) cursor)).take limit := rfl

theorem getRecent_nextCursor (st : StoreState) (limit : Nat) (cursor : Option Str) :
    (getRecentTransactions st limit cursor).nextCursor =
      (if ((getRecentTransactions st limit cursor).items).length = limit
        then ((getRecentTransactions st limit cursor).items).getLast?.map encodeCursor
        else none) := rfl

theorem getRecent_hasMore (st : StoreState) (limit : Nat) (cursor : Option Str) :
    (getRecentTransactions st limit cursor).hasMore =
      ((getRecentTransactions st limit cursor).nextCursor).isSome := rfl

theorem take_drop_getLast {S : List Transaction} {i limit : Nat} (hl : 0 < limit)
    (h : limit ≤ S.length - i) (hb : i + limit - 1 < S.length) :
    ((S.drop i).take limit).getLast? = some S[i + limit - 1] := by
  have hlen : ((S.drop i).take limit).length = limit := by
    rw [List.length_take, List.length_drop]
    omega
  rw [List.getLast?_eq_getElem?, hlen]
  have hlt : limit - 1 < ((S.drop i).take limit).length := by omega
  rw [List.getElem?_eq_getElem hlt]
  congr 1
  rw [List.getElem_take, List.getElem_drop]
  congr 1
  omega

theorem slice_length_eq {S : List Transaction} {i limit : Nat} (h : limit ≤ S.length - i) :
    ((S.drop i).take limit).length = limit := by
  rw [List.length_take, List.length_drop]
  omega

theorem collectPages_from {st : StoreState} {limit : Nat} (hl : 0 < limit)
    (hk : ((sortTx st.transactions).map txKey).Nodup)
    (hfree : ∀ t ∈ sortTx st.transactions, '|' ∉ t.date_iso ∧ '|' ∉ t.id) :
    ∀ (r i : Nat) (cursor : Option Str) (fuel : Nat),
      startIndexOf (sortTx st.transactions) cursor = i →
      (sortTx st.transactions).length - i = r →
      r + 1 ≤ fuel →
      collectPages st limit fuel cursor = (sortTx st.transactions).drop i := by
  intro r
  induction r using Nat.strong_induction_on with
  | _ r ih =>
    intro i cursor fuel hcur hr hfuel
    obtain ⟨f, rfl⟩ : ∃ f, fuel = f + 1 := ⟨fuel - 1, by omega⟩
    rw [collectPages]
    by_cases hcase : (sortTx st.transactions).length - i < limit
    · have hitems : (getRecentTransactions st limit cursor).items =
          (sortTx st.transactions).drop i := by
        rw [getRecent_items, hcur]
        refine List.take_of_length_le ?_
        rw [List.length_drop]
        omega
      have hnc : (getRecentTransactions st limit cursor).nextCursor = none := by
        rw [getRecent_nextCursor, hitems, if_neg]
        rw [List.length_drop]
        omega
      have hhm : (getRecentTransactions st limit cursor).hasMore = false := by
        rw [getRecent_hasMore, hnc]
        rfl
      rw [hhm]
      simp only [Bool.false_eq_true, if_false]
      exact hitems
    · push_neg at hcase
      have hb : i + limit - 1 < (sortTx st.transactions).length := by omega
      have hitems : (getRecentTransactions st limit cursor).items =
          (((sortTx st.transactions).drop i).take limit) := by
        rw [getRecent_items, hcur]
      have hlast : (((sortTx st.transactions).drop i).take limit).getLast? =
          some (sortTx st.transactions)[i + limit - 1] :=
        take_drop_getLast hl hcase hb
      have hnc : (getRecentTransactions st limit cursor).nextCursor =
          some (encodeCursor (sortTx st.transactions)[i + limit - 1]) := by
        rw [getRecent_nextCursor, hitems, if_pos (slice_length_eq hcase), hlast]
        rfl
      have hhm : (getRecentTransactions st limit cursor).hasMore = true := by
        rw [getRecent_hasMore, hnc]
        rfl
      rw [hhm]
      simp only [if_true]
      have hresolve : startIndexOf (sortTx st.transactions)
          (some (encodeCursor (sortTx st.transactions)[i + limit - 1])) = i + limit := by
        rw [startIndexOf_encode hk hfree hb]
        omega
      have hih := ih ((sortTx st.transactions).length - (i + limit)) (by omega)
        (i + limit) (some (encodeCursor (sortTx st.transactions)[i + limit - 1])) f
        hresolve rfl (by omega)
      rw [hitems, hnc, hih]
      rw [show (sortTx st.transactions).drop (i + limit) =
        (((sortTx st.transactions).drop i).drop limit) from (List.drop_drop _ _ _).symm]
      exact List.take_append_drop limit _

/-! ## Invariant preservation -/

theorem normTxFix_id (t : Transaction) : (normTxFix t).id = t.id := rfl

theorem normTxFix_key (t : Transaction) : txKey (normTxFix t) = txKey t := rfl

theorem InvTx_nil : InvTx [] := ⟨by simp, by simp, by simp⟩

theorem InvTx_sublist {l l' : List Transaction} (h : InvTx l) (hs : l'.Sublist l) : InvTx l' :=
  ⟨fun t ht => h.1 t (hs.mem ht), (hs.map Transaction.id).nodup h.2.1, h.2.2.sublist hs⟩

theorem InvTx_of_ids {l : List Transaction} (hne : ∀ t ∈ l, t.id ≠ [])
    (hnd : (l.map Transaction.id).Nodup) : InvTx (sortTx l) := by
  refine ⟨?_, idsNodup_sortTx hnd, ?_⟩
  · intro t ht
    exact hne t ((sortTx_perm l).mem_iff.mp ht)
  · exact sortTx_pairwise_txAfter (keysNodup_of_idsNodup hnd)

theorem InvTx_normalized {l : List Transaction} (h : InvTx l) (fresh : Nat → Str) (now : Str) :
    InvTx (normalizeTransactions fresh now (some (l.map (fun t => some t.toRaw)))) := by
  rw [normalizeTransactions_toRaw fresh now h.1]
  have hsub : ((l.map normTxFix).filter (fun t => 0 < t.amount_cents)).Sublist
      (l.map normTxFix) := List.filter_sublist _
  refine InvTx_sublist ⟨?_, ?_, ?_⟩ hsub
  · intro t ht
    obtain ⟨x, hx, rfl⟩ := List.mem_map.mp ht
    rw [normTxFix_id]
    exact h.1 x hx
  · have hmm : (l.map normTxFix).map Transaction.id = l.map Transaction.id := by
      rw [List.map_map]
      rfl
    rw [hmm]
    exact h.2.1
  · refine List.pairwise_map.mpr (h.2.2.imp ?_)
    intro a b hab
    exact txAfter_key_congr (normTxFix_key a).symm (normTxFix_key b).symm hab

theorem InvTx_insert {l : List Transaction} {t : Transaction} (h : InvTx l) (hne : t.id ≠ [])
    (hniq : t.id ∉ l.map Transaction.id) : InvTx (sortTx (l ++ [t])) := by
  refine InvTx_of_ids ?_ ?_
  · intro x hx
    rcases List.mem_append.mp hx with hx' | hx'
    · exact h.1 x hx'
    · rw [List.mem_singleton.mp hx']
      exact hne
  · rw [List.map_append]
    refine List.nodup_append.mpr ⟨h.2.1, by simp, ?_⟩
    intro a ha hb
    simp only [List.map_cons, List.map_nil, List.mem_singleton] at hb
    rw [hb] at ha
    exact hniq ha

theorem InvTx_update {l : List Transaction} (h : InvTx l) (cats : List Category)
    (u : TxUpdates) (id0 : Str) :
    InvTx (sortTx (l.map (fun tx => if tx.id = id0 then mergeTransaction cats tx u else tx)))
    := by
  have hids : (l.map (fun tx => if tx.id = id0 then mergeTransaction cats tx u else tx)).map
      Transaction.id = l.map Transaction.id := by
    rw [List.map_map]
    refine List.map_congr_left ?_
    intro tx _
    by_cases hx : tx.id = id0
    · simp [hx, mergeTransaction]
    · simp [hx]
  refine InvTx_of_ids ?_ ?_
  · intro x hx
    obtain ⟨y, hy, rfl⟩ := List.mem_map.mp hx
    by_cases hyy : y.id = id0
    · rw [if_pos hyy]
      exact h.1 y hy
    · rw [if_neg hyy]
      exact h.1 y hy
  · rw [hids]
    exact h.2.1

theorem InvTx_dedupe (l : List Transaction) :
    InvTx (sortTx (dedupeById Transaction.id l)) := by
  refine InvTx_of_ids ?_ (dedupeGo_ids_nodup Transaction.id [] l)
  intro t ht
  have := (dedupeGo_mem_props Transaction.id [] l t ht).1
  simpa [List.isEmpty_iff] using this

theorem loadedState_transactions (fresh : Nat → Str) (now : Str) (stored : StoreState) :
    (loadedState fresh now stored).transactions =
      normalizeTransactions fresh now
        (some (stored.transactions.map (fun t => some t.toRaw))) := rfl

theorem step_preserves_inv {s s' : Store} (h : StoreInv s) (hs : Step s s') : StoreInv s' := by
  cases hs with
  | addTx newId now d s hne hniq =>
    have hinv : InvTx (sortTx (s.state.transactions ++
        [buildTransaction newId now s.state.categories d])) :=
      InvTx_insert h.1 hne hniq
    exact ⟨hinv, hinv⟩
  | updateTx id0 u s =>
    have hinv := InvTx_update h.1 s.state.categories u id0
    exact ⟨hinv, hinv⟩
  | deleteTx id0 s =>
    have hinv : InvTx (s.state.transactions.filter (fun tx => tx.id != id0)) :=
      InvTx_sublist h.1 (List.filter_sublist _)
    exact ⟨hinv, hinv⟩
  | addCat newId name bucket s => exact ⟨h.1, h.1⟩
  | updateCat id0 u s => exact ⟨h.1, h.1⟩
  | archiveCat id0 archived s => exact ⟨h.1, h.1⟩
  | addRec newId description amount cid s => exact ⟨h.1, h.1⟩
  | updateRec id0 u s => exact ⟨h.1, h.1⟩
  | deleteRec id0 s => exact ⟨h.1, h.1⟩
  | save u s => exact ⟨h.1, h.1⟩
  | resetStep fresh now s =>
    refine ⟨?_, InvTx_nil⟩
    rw [show (reset fresh now s).state.transactions = [] from rfl]
    exact InvTx_nil
  | initStep fresh now s =>
    exact ⟨InvTx_normalized h.2 fresh now, h.2⟩
  | importStep fresh now p strategy s s' hids hnodup hok =>
    unfold importData at hok
    dsimp only at hok
    by_cases hv : p.schema_version ≠ some STORAGE_VERSION
    · rw [if_pos hv] at hok
      cases hok
    · rw [if_neg hv] at hok
      by_cases hstrat : strategy = str "merge"
      · rw [if_pos hstrat] at hok
        have hst := congrArg (fun x => x.state.transactions) (Except.ok.inj hok)
        have hsg := congrArg (fun x => x.storage.transactions) (Except.ok.inj hok)
        simp only [notify, persist] at hst hsg
        have hinv := InvTx_dedupe
          (s.state.transactions ++ normalizeTransactions fresh now p.transactions)
        constructor
        · rw [← hst]
          exact hinv
        · rw [← hsg]
          exact hinv
      · rw [if_neg hstrat] at hok
        have hst := congrArg (fun x => x.state.transactions) (Except.ok.inj hok)
        have hsg := congrArg (fun x => x.storage.transactions) (Except.ok.inj hok)
        simp only [notify, persist] at hst hsg
        have hinv := InvTx_of_ids (hids hstrat) (hnodup hstrat)
        constructor
        · rw [← hst]
          exact hinv
        · rw [← hsg]
          exact hinv

theorem reachable_inv {fresh : Nat → Str} {s : Store} (h : Reachable fresh s) : StoreInv s := by
  unfold Reachable at h
  induction h with
  | refl => exact ⟨InvTx_nil, InvTx_nil⟩
  | tail _ hstep ih => exact step_preserves_inv ih hstep

/-! ## Shared helper facts for witnesses -/

theorem exFresh_ne_nil : ∀ n, exFresh n ≠ [] := by
  intro n
  unfold exFresh str
  intro h
  have : ("f" ++ toString n).toList.length = 0 := by rw [h]; rfl
  rw [String.toList, String.data_append, List.length_append] at this
  simp at this

/-! ## Claim theorems -/

/-- Claim C1: the specification states that no transaction with
`amount_cents ≤ 0` ever appears in the collection after any Store
operation.  The normalizer and the UI enforce this, but the Store's own
mutation path does not: `addTransaction` with a draft whose amount coerces
to 0, and `updateTransaction` with an update whose amount coerces to 0,
both leave a zero-amount transaction in the collection.  This theorem
evaluates the embedded code at those failing inputs. -/
theorem C1_zero_amount_reaches_collection :
    (¬ ∀ t ∈ zeroStore.state.transactions, 0 < t.amount_cents) ∧
    (¬ ∀ t ∈ (updateTransaction (str "t1") { amount_cents := some 0 }
        ((addTransaction (str "t1") exNow expenseDraft emptyStore).1)).1.state.transactions,
      0 < t.amount_cents) := by
  constructor
  · decide
  · decide

/-- Claim C2: `importData` with an absent or mismatched `schema_version`
throws the typed `SCHEMA_MISMATCH` error, and the caller's store is
entirely unchanged: the state, the persisted storage and the notification
log are all exactly as before the call. -/
theorem C2_schema_mismatch_rejected (fresh : Nat → Str) (now : Str) (payload : Option Payload)
    (strategy : Str) (s : Store)
    (h : ∀ p, payload = some p → p.schema_version ≠ some STORAGE_VERSION) :
    importData fresh now payload strategy s = Except.error ImportError.schemaMismatch ∧
      importDataResult fresh now payload strategy s = s := by
  have herr : importData fresh now payload strategy s =
      Except.error ImportError.schemaMismatch := by
    cases payload with
    | none => rfl
    | some p =>
      unfold importData
      dsimp only
      rw [if_pos (h p rfl)]
  refine ⟨herr, ?_⟩
  unfold importDataResult
  rw [herr]

/-- Witness for C2 at a concrete mismatching payload. -/
theorem C2_schema_mismatch_rejected_witness :
    importData exFresh exNow (some { schema_version := some 2 }) (str "replace") emptyStore =
        Except.error ImportError.schemaMismatch ∧
      importDataResult exFresh exNow (some { schema_version := some 2 }) (str "replace")
        emptyStore = emptyStore :=
  C2_schema_mismatch_rejected exFresh exNow (some { schema_version := some 2 })
    (str "replace") emptyStore (by intro p hp; cases hp; decide)

/-- Claim C6 (corrected): the month-membership test `isSameMonth` used by
the aggregation queries buckets a transaction by the UTC calendar year and
0-based month of its parsed `date_iso` — not by the platform's local
calendar: it holds exactly when the timestamp parses and its UTC components
equal the requested month. -/
theorem C6_month_membership_utc (dateIso : Str) (year monthIndex : Int) :
    isSameMonth dateIso year monthIndex = true ↔
      ∃ ms, parseIso dateIso = some ms ∧
        getUTCFullYear ms = year ∧ getUTCMonth ms = monthIndex := by
  unfold isSameMonth
  cases h : parseIso dateIso with
  | none => simp
  | some ms => simp [h]

/-- Counterexample for C6 as stated: a timestamp half an hour before the
UTC end of February 2024 is bucketed into February by the code (UTC), while
a platform at UTC+2 — whose local calendar already reads March 1 — would
bucket it into March if local time were used. -/
theorem C6_local_bucketing_refuted :
    isSameMonth boundaryIso 2024 1 = true ∧
      isSameMonthLocalSpec 120 boundaryIso 2024 1 = false ∧
      isSameMonthLocalSpec 120 boundaryIso 2024 2 = true := by
  refine ⟨by decide, by decide, by decide⟩

/-- Claim C7 (amended): after every sequence of public Store operations —
with fresh, truthy ids for created records and, for replace-imports,
payloads whose normalized transactions carry truthy pairwise-distinct ids —
every adjacent pair `(a, b)` of the transactions collection satisfies
`a.date_iso > b.date_iso`, or `a.date_iso = b.date_iso` and `a.id > b.id`,
lexicographically. -/
theorem C7_sort_invariant (fresh : Nat → Str) (s : Store) (h : Reachable fresh s) :
    s.state.transactions.Chain' txAfter :=
  ((reachable_inv h).1.2.2).chain'

/-- Witness for C7: the store reached by one `addTransaction` on the
initial store. -/
theorem C7_sort_invariant_witness :
    (addTransaction (str "t1") exNow incomeDraft (initialStore exFresh)).1.state.transactions.Chain'
      txAfter :=
  C7_sort_invariant exFresh _
    (Relation.ReflTransGen.single
      (Step.addTx (str "t1") exNow incomeDraft (initialStore exFresh) (by decide) (by decide)))

/-- Counterexample for C7 as stated: a replace-import of a payload that
carries the same transaction record twice produces a collection with two
identical adjacent records, for which neither `a.date_iso > b.date_iso` nor
`a.id > b.id` holds. -/
theorem C7_duplicate_import_refutes :
    ∃ s', importData exFresh exNow (some dupPayload) (str "replace") emptyStore =
        Except.ok s' ∧ ¬ s'.state.transactions.Chain' txAfter := by
  refine ⟨importDataResult exFresh exNow (some dupPayload) (str "replace") emptyStore,
    rfl, ?_⟩
  have ht : (importDataResult exFresh exNow (some dupPayload) (str "replace")
      emptyStore).state.transactions = [dupTxNorm, dupTxNorm] := by decide
  rw [ht]
  intro hch
  exact txAfter_irrefl (List.chain'_cons.mp hch).1

/-- Claim C4 (amended): for every fixed transactions collection whose
`(date_iso, id)` keys are pairwise distinct and whose `date_iso`/`id`
fields do not contain the cursor delimiter `|`, and every positive page
limit, repeatedly calling `getRecentTransactions` from `cursor = none`,
feeding each returned cursor into the next call and stopping when
`hasMore` is false, concatenates to exactly the full descending-sorted
transaction list — no duplicates, no omissions. -/
theorem C4_pagination_roundtrip (st : StoreState) (limit : Nat) (hl : 0 < limit)
    (hk : (st.transactions.map txKey).Nodup)
    (hfree : ∀ t ∈ st.transactions, '|' ∉ t.date_iso ∧ '|' ∉ t.id) :
    ∀ fuel, st.transactions.length + 1 ≤ fuel →
      collectPages st limit fuel none = sortTx st.transactions := by
  intro fuel hfuel
  have hk' : ((sortTx st.transactions).map txKey).Nodup := keysNodup_sortTx hk
  have hfree' : ∀ t ∈ sortTx st.transactions, '|' ∉ t.date_iso ∧ '|' ∉ t.id :=
    fun t ht => hfree t ((sortTx_perm st.transactions).mem_iff.mp ht)
  have hlen : (sortTx st.transactions).length = st.transactions.length :=
    (sortTx_perm st.transactions).length_eq
  have h := collectPages_from hl hk' hfree' ((sortTx st.transactions).length) 0 none fuel
    rfl (by omega) (by omega)
  simpa using h

/-- Witness for C4 on four concrete transactions with limit 3. -/
theorem C4_pagination_roundtrip_witness :
    collectPages exState4 3 5 none = sortTx exState4.transactions :=
  C4_pagination_roundtrip exState4 3 (by decide) (by decide) (by decide) 5 (by decide)

/-- Counterexample for C4 as stated: when an id contains the cursor
delimiter `|`, the returned cursor decodes to a truncated id, the lookup
fails, pagination restarts from the top, and the concatenated pages repeat
the first page forever instead of reproducing the list. -/
theorem C4_pipe_id_refutes :
    collectPages pipeState 1 3 none =
      [pipeTx 2 "2024-02-02T00:00:00.000Z", pipeTx 2 "2024-02-02T00:00:00.000Z",
       pipeTx 2 "2024-02-02T00:00:00.000Z"] ∧
    collectPages pipeState 1 3 none ≠ sortTx pipeState.transactions := by
  refine ⟨by decide, by decide⟩

theorem roundPct_floor (n p : Int) :
    roundPct n p = ⌊((n * p : Int) : ℚ) / 100 + 1 / 2⌋ := by
  have h1 : ((n * p : Int) : ℚ) / 100 + 1 / 2 =
      ((2 * (n * p) + 100 : Int) : ℚ) / ((200 : Nat) : ℚ) := by
    push_cast
    ring
  rw [h1, Rat.floor_intCast_div_natCast]
  rfl

/-- Claim C5: `getMonthlyTotals` gives each of the three rule buckets
`budget_cents = round(income_cents × rule_percentage / 100)` (exact
arithmetic, JS round-half-up), budget 0 for Uncategorized, and
`remaining_cents = budget_cents − spent_cents` when the budget is non-zero
and `−spent_cents` otherwise; and the concrete scenario — income 200000,
one Necessities expense of 50000, rule 50/30/20 — evaluates to Necessities
budget 100000 / spent 50000 / remaining 50000 and Leisure budget 60000 /
spent 0 / remaining 60000. -/
theorem C5_monthly_totals (st : StoreState) (year monthIndex : Int) :
    ((getMonthlyTotals st year monthIndex).buckets.Necessities.budget_cents =
      ⌊(((getMonthlyTotals st year monthIndex).income_cents *
          st.settings.rule.necessities : Int) : ℚ) / 100 + 1 / 2⌋) ∧
    ((getMonthlyTotals st year monthIndex).buckets.Leisure.budget_cents =
      ⌊(((getMonthlyTotals st year monthIndex).income_cents *
          st.settings.rule.leisure : Int) : ℚ) / 100 + 1 / 2⌋) ∧
    ((getMonthlyTotals st year monthIndex).buckets.Savings.budget_cents =
      ⌊(((getMonthlyTotals st year monthIndex).income_cents *
          st.settings.rule.savings : Int) : ℚ) / 100 + 1 / 2⌋) ∧
    ((getMonthlyTotals st year monthIndex).buckets.Uncategorized.budget_cents = 0) ∧
    ((getMonthlyTotals st year monthIndex).buckets.Necessities.remaining_cents =
      if (getMonthlyTotals st year monthIndex).buckets.Necessities.budget_cents ≠ 0
      then (getMonthlyTotals st year monthIndex).buckets.Necessities.budget_cents -
        (getMonthlyTotals st year monthIndex).buckets.Necessities.spent_cents
      else -(getMonthlyTotals st year monthIndex).buckets.Necessities.spent_cents) ∧
    ((getMonthlyTotals st year monthIndex).buckets.Leisure.remaining_cents =
      if (getMonthlyTotals st year monthIndex).buckets.Leisure.budget_cents ≠ 0
      then (getMonthlyTotals st year monthIndex).buckets.Leisure.budget_cents -
        (getMonthlyTotals st year monthIndex).buckets.Leisure.spent_cents
      else -(getMonthlyTotals st year monthIndex).buckets.Leisure.spent_cents) ∧
    ((getMonthlyTotals st year monthIndex).buckets.Savings.remaining_cents =
      if (getMonthlyTotals st year monthIndex).buckets.Savings.budget_cents ≠ 0
      then (getMonthlyTotals st year monthIndex).buckets.Savings.budget_cents -
        (getMonthlyTotals st year monthIndex).buckets.Savings.spent_cents
      else -(getMonthlyTotals st year monthIndex).buckets.Savings.spent_cents) ∧
    ((getMonthlyTotals st year monthIndex).buckets.Uncategorized.remaining_cents =
      if (getMonthlyTotals st year monthIndex).buckets.Uncategorized.budget_cents ≠ 0
      then (getMonthlyTotals st year monthIndex).buckets.Uncategorized.budget_cents -
        (getMonthlyTotals st year monthIndex).buckets.Uncategorized.spent_cents
      else -(getMonthlyTotals st year monthIndex).buckets.Uncategorized.spent_cents) ∧
    (getMonthlyTotals scenarioStore.state 2024 1 =
      { income_cents := 200000
        expense_cents := 50000
        buckets :=
          { Necessities := { spent_cents := 50000, budget_cents := 100000, remaining_cents := 50000 }
            Leisure := { spent_cents := 0, budget_cents := 60000, remaining_cents := 60000 }
            Savings := { spent_cents := 0, budget_cents := 40000, remaining_cents := 40000 }
            Uncategorized := { spent_cents := 0, budget_cents := 0, remaining_cents := 0 } } }) :=
  ⟨roundPct_floor _ _, roundPct_floor _ _, roundPct_floor _ _, rfl,
    rfl, rfl, rfl, rfl, by decide⟩

/-- Claim C10: when exactly `limit` transactions remain after the cursor
position, `getRecentTransactions` returns that final full page with a
non-null `nextCursor` and `hasMore = true` even though nothing follows,
and the subsequent call with that cursor returns an empty items list, a
null `nextCursor`, and `hasMore = false`.  (Stated for collections with
distinct keys and delimiter-free fields, under which cursors resolve
uniquely; a remaining count that is a larger multiple of the limit reduces
to this case after full pages.) -/
theorem C10_exact_multiple_final_page (st : StoreState) (limit : Nat) (cursor : Option Str)
    (hl : 0 < limit) (hk : (st.transactions.map txKey).Nodup)
    (hfree : ∀ t ∈ st.transactions, '|' ∉ t.date_iso ∧ '|' ∉ t.id)
    (hrem : (sortTx st.transactions).length -
      startIndexOf (sortTx st.transactions) cursor = limit) :
    (getRecentTransactions st limit cursor).items.length = limit ∧
    (getRecentTransactions st limit cursor).hasMore = true ∧
    ∃ c', (getRecentTransactions st limit cursor).nextCursor = some c' ∧
      (getRecentTransactions st limit (some c')).items = [] ∧
      (getRecentTransactions st limit (some c')).nextCursor = none ∧
      (getRecentTransactions st limit (some c')).hasMore = false := by
  have hk' : ((sortTx st.transactions).map txKey).Nodup := keysNodup_sortTx hk
  have hfree' : ∀ t ∈ sortTx st.transactions, '|' ∉ t.date_iso ∧ '|' ∉ t.id :=
    fun t ht => hfree t ((sortTx_perm st.transactions).mem_iff.mp ht)
  have hiS : startIndexOf (sortTx st.transactions) cursor < (sortTx st.transactions).length := by
    omega
  have hb : startIndexOf (sortTx st.transactions) cursor + limit - 1 <
      (sortTx st.transactions).length := by omega
  have hle : limit ≤ (sortTx st.transactions).length -
      startIndexOf (sortTx st.transactions) cursor := by omega
  have hitems : (getRecentTransactions st limit cursor).items =
      (((sortTx st.transactions).drop (startIndexOf (sortTx st.transactions) cursor)).take
        limit) := getRecent_items st limit cursor
  have hlast := take_drop_getLast (S := sortTx st.transactions)
    (i := startIndexOf (sortTx st.transactions) cursor) hl hle hb
  have hnc : (getRecentTransactions st limit cursor).nextCursor =
      some (encodeCursor (sortTx st.transactions)[startIndexOf (sortTx st.transactions) cursor +
        limit - 1]) := by
    rw [getRecent_nextCursor, hitems, if_pos (slice_length_eq hle), hlast]
    rfl
  refine ⟨?_, ?_, encodeCursor (sortTx st.transactions)[startIndexOf (sortTx st.transactions)
    cursor + limit - 1], hnc, ?_, ?_, ?_⟩
  · rw [hitems]
    exact slice_length_eq hle
  · rw [getRecent_hasMore, hnc]
    rfl
  · rw [getRecent_items, startIndexOf_encode hk' hfree' hb]
    have hix : startIndexOf (sortTx st.transactions) cursor + limit - 1 + 1 =
        (sortTx st.transactions).length := by omega
    rw [hix, List.drop_length, List.take_nil]
  · rw [getRecent_nextCursor, getRecent_items, startIndexOf_encode hk' hfree' hb]
    have hix : startIndexOf (sortTx st.transactions) cursor + limit - 1 + 1 =
        (sortTx st.transactions).length := by omega
    rw [hix, List.drop_length, List.take_nil, if_neg (by simpa using hl.ne)]
  · rw [getRecent_hasMore, getRecent_nextCursor, getRecent_items,
      startIndexOf_encode hk' hfree' hb]
    have hix : startIndexOf (sortTx st.transactions) cursor + limit - 1 + 1 =
        (sortTx st.transactions).length := by omega
    rw [hix, List.drop_length, List.take_nil, if_neg (by simpa using hl.ne)]
    rfl

/-- Witness for C10: four transactions, limit 2, cursor after the second. -/
theorem C10_exact_multiple_final_page_witness :
    (getRecentTransactions exState4 2
        (some (encodeCursor (exTx 3 "2024-02-03T00:00:00.000Z")))).items.length = 2 ∧
    (getRecentTransactions exState4 2
        (some (encodeCursor (exTx 3 "2024-02-03T00:00:00.000Z")))).hasMore = true ∧
    ∃ c', (getRecentTransactions exState4 2
        (some (encodeCursor (exTx 3 "2024-02-03T00:00:00.000Z")))).nextCursor = some c' ∧
      (getRecentTransactions exState4 2 (some c')).items = [] ∧
      (getRecentTransactions exState4 2 (some c')).nextCursor = none ∧
      (getRecentTransactions exState4 2 (some c')).hasMore = false :=
  C10_exact_multiple_final_page exState4 2
    (some (encodeCursor (exTx 3 "2024-02-03T00:00:00.000Z")))
    (by decide) (by decide) (by decide) (by decide)

theorem dedupe_merge_spec (getId : α → Str) (l₁ l₂ : List α)
    (h1 : ∀ x ∈ l₁, getId x ≠ []) (hnd : (l₁.map getId).Nodup)
    (h2 : ∀ y ∈ l₂, getId y ≠ []) :
    (∀ x ∈ l₁, x ∈ dedupeById getId (l₁ ++ l₂)) ∧
    (∀ x ∈ dedupeById getId (l₁ ++ l₂), x ∈ l₁ ∨ (x ∈ l₂ ∧ getId x ∉ l₁.map getId)) ∧
    ((dedupeById getId (l₁ ++ l₂)).map getId).Nodup ∧
    (∀ y ∈ l₂, getId y ∈ (dedupeById getId (l₁ ++ l₂)).map getId) := by
  have hemp : ∀ x ∈ l₁, ¬(getId x).isEmpty = true := fun x hx => by
    simpa [List.isEmpty_iff] using h1 x hx
  have happ := dedupeById_append getId l₁ l₂ hemp hnd
  refine ⟨?_, ?_, dedupeGo_ids_nodup getId [] _, ?_⟩
  · intro x hx
    rw [happ]
    exact List.mem_append_left _ hx
  · intro x hx
    rw [happ] at hx
    rcases List.mem_append.mp hx with hx' | hx'
    · exact Or.inl hx'
    · exact Or.inr ⟨(dedupeGo_sublist getId _ l₂).subset hx',
        (dedupeGo_mem_props getId _ l₂ x hx').2⟩
  · intro y hy
    have hcov := dedupeGo_covers getId [] (l₁ ++ l₂) y (List.mem_append_right _ hy)
      (by simpa [List.isEmpty_iff] using h2 y hy)
    rcases hcov with h | h
    · simp at h
    · exact h

/-- Claim C3: for a current state with truthy pairwise-distinct transaction
and recurring ids, and a valid payload, `importData` with strategy
`"merge"` replaces the settings with the (normalized) imported settings,
keeps every current category and adds only imported categories whose id is
not already present, and yields transactions and recurring collections
with at most one record per id in which current records always win over
imported records of the same id, every imported id being represented;
transactions are re-sorted. -/
theorem C3_merge_import (fresh : Nat → Str) (now : Str) (p : Payload) (s : Store)
    (hf : ∀ n, fresh n ≠ [])
    (hver : p.schema_version = some STORAGE_VERSION)
    (htid : ∀ t ∈ s.state.transactions, t.id ≠ [])
    (htnd : (s.state.transactions.map Transaction.id).Nodup)
    (hrid : ∀ r ∈ s.state.recurring, r.id ≠ [])
    (hrnd : (s.state.recurring.map Recurring.id).Nodup) :
    ∃ s', importData fresh now (some p) (str "merge") s = Except.ok s' ∧
      s'.state.settings = normalizeSettings p.settings ∧
      (∀ c ∈ s.state.categories, c ∈ s'.state.categories) ∧
      (∀ c ∈ s'.state.categories, c ∈ s.state.categories ∨
        (c ∈ normalizeCategories fresh p.categories ∧
          c.id ∉ s.state.categories.map Category.id)) ∧
      (s'.state.transactions.map Transaction.id).Nodup ∧
      (∀ t ∈ s.state.transactions, t ∈ s'.state.transactions) ∧
      (∀ t ∈ s'.state.transactions, t ∈ s.state.transactions ∨
        (t ∈ normalizeTransactions fresh now p.transactions ∧
          t.id ∉ s.state.transactions.map Transaction.id)) ∧
      (∀ t ∈ normalizeTransactions fresh now p.transactions,
        t.id ∈ s'.state.transactions.map Transaction.id) ∧
      s'.state.transactions.Pairwise (fun a b => txLe a b = true) ∧
      (s'.state.recurring.map Recurring.id).Nodup ∧
      (∀ r ∈ s.state.recurring, r ∈ s'.state.recurring) ∧
      (∀ r ∈ s'.state.recurring, r ∈ s.state.recurring ∨
        (r ∈ normalizeRecurring fresh p.recurring ∧
          r.id ∉ s.state.recurring.map Recurring.id)) ∧
      (∀ r ∈ normalizeRecurring fresh p.recurring,
        r.id ∈ s'.state.recurring.map Recurring.id) := by
  have hspecT := dedupe_merge_spec Transaction.id s.state.transactions
    (normalizeTransactions fresh now p.transactions) htid htnd
    (fun t ht => (normalizeTransactions_mem fresh now p.transactions hf t ht).1)
  have hspecR := dedupe_merge_spec Recurring.id s.state.recurring
    (normalizeRecurring fresh p.recurring) hrid hrnd
    (fun r hr => (normalizeRecurring_mem fresh p.recurring hf r hr).1)
  have hpermT := sortTx_perm (dedupeById Transaction.id
    (s.state.transactions ++ normalizeTransactions fresh now p.transactions))
  refine ⟨notify { type := str "data:import", strategy := some (str "merge") }
    (persist { s with state :=
      { settings := normalizeSettings p.settings
        categories := s.state.categories ++
          (normalizeCategories fresh p.categories).filter
            (fun cat => cat.id ∉ s.state.categories.map Category.id)
        transactions := sortTx (dedupeById Transaction.id
          (s.state.transactions ++ normalizeTransactions fresh now p.transactions))
        recurring := dedupeById Recurring.id
          (s.state.recurring ++ normalizeRecurring fresh p.recurring) } }),
    ?_, rfl, ?_, ?_, ?_, ?_, ?_, ?_, ?_, ?_, ?_, ?_, ?_⟩
  · unfold importData
    dsimp only
    rw [if_neg (by simp [hver]), if_pos rfl]
  · intro c hc
    exact List.mem_append_left _ hc
  · intro c hc
    rcases List.mem_append.mp hc with hc' | hc'
    · exact Or.inl hc'
    · have hm := List.mem_filter.mp hc'
      exact Or.inr ⟨hm.1, by simpa using hm.2⟩
  · exact idsNodup_sortTx hspecT.2.2.1
  · intro t ht
    exact hpermT.mem_iff.mpr (hspecT.1 t ht)
  · intro t ht
    exact hspecT.2.1 t (hpermT.mem_iff.mp ht)
  · intro t ht
    exact ((hpermT.map Transaction.id).mem_iff).mpr (hspecT.2.2.2 t ht)
  · exact sortTx_sorted _
  · exact hspecR.2.2.1
  · exact hspecR.1
  · exact hspecR.2.1
  · exact hspecR.2.2.2

/-- Witness for C3: current ids `{id10, id11}` merged with imported ids
`{id11, id12}`; the resulting collection is exactly `{id11 (current
values), id10, id12}` in descending sort order. -/
theorem C3_merge_import_witness :
    (∃ s', importData exFresh exNow (some payloadBC) (str "merge") storeAB = Except.ok s' ∧
      s'.state.settings = normalizeSettings payloadBC.settings ∧
      (∀ c ∈ storeAB.state.categories, c ∈ s'.state.categories) ∧
      (∀ c ∈ s'.state.categories, c ∈ storeAB.state.categories ∨
        (c ∈ normalizeCategories exFresh payloadBC.categories ∧
          c.id ∉ storeAB.state.categories.map Category.id)) ∧
      (s'.state.transactions.map Transaction.id).Nodup ∧
      (∀ t ∈ storeAB.state.transactions, t ∈ s'.state.transactions) ∧
      (∀ t ∈ s'.state.transactions, t ∈ storeAB.state.transactions ∨
        (t ∈ normalizeTransactions exFresh exNow payloadBC.transactions ∧
          t.id ∉ storeAB.state.transactions.map Transaction.id)) ∧
      (∀ t ∈ normalizeTransactions exFresh exNow payloadBC.transactions,
        t.id ∈ s'.state.transactions.map Transaction.id) ∧
      s'.state.transactions.Pairwise (fun a b => txLe a b = true) ∧
      (s'.state.recurring.map Recurring.id).Nodup ∧
      (∀ r ∈ storeAB.state.recurring, r ∈ s'.state.recurring) ∧
      (∀ r ∈ s'.state.recurring, r ∈ storeAB.state.recurring ∨
        (r ∈ normalizeRecurring exFresh payloadBC.recurring ∧
          r.id ∉ storeAB.state.recurring.map Recurring.id)) ∧
      (∀ r ∈ normalizeRecurring exFresh payloadBC.recurring,
        r.id ∈ s'.state.recurring.map Recurring.id)) ∧
    (importDataResult exFresh exNow (some payloadBC) (str "merge")
        storeAB).state.transactions.map (fun t => (t.id, t.amount_cents)) =
      [(str "id11", 100), (str "id10", 100), (str "id12", 777)] :=
  ⟨C3_merge_import exFresh exNow payloadBC storeAB exFresh_ne_nil (by decide) (by decide)
    (by decide) (by decide) (by decide), by decide⟩

/-- Claim C8 (amended): on a store whose state is in normal form — every
record a fixed point of its normalizer, transactions sorted — the
round-trip `importData(exportData(), {strategy: "replace"})` succeeds and
leaves the state exactly as before (it persists that same state and emits
the import notification). -/
theorem C8_export_import_roundtrip (fresh : Nat → Str) (now : Str) (s : Store)
    (h : NormalForm s.state) :
    importData fresh now (some (exportData s.state)) (str "replace") s =
      Except.ok (notify { type := str "data:import", strategy := some (str "replace") }
        (persist s)) := by
  unfold importData exportData
  dsimp only
  rw [if_neg (by simp), if_neg (by decide)]
  have h1 : normalizeSettings (some s.state.settings.toRaw) = s.state.settings := h.1
  have h2 := normalizeCategories_of_normal fresh (l := s.state.categories) h.2.1
  have h3 := normalizeTransactions_of_normal fresh now (l := s.state.transactions) h.2.2.1
  have h4 := normalizeRecurring_of_normal fresh (l := s.state.recurring) h.2.2.2.1
  have h5 : sortTx s.state.transactions = s.state.transactions :=
    sortTx_of_sorted h.2.2.2.2
  rw [h1, h2, h3, h5, h4]

/-- Witness for C8 on a concrete four-transaction normal-form store. -/
theorem C8_export_import_roundtrip_witness :
    importData exFresh exNow (some (exportData store4Desc.state)) (str "replace") store4Desc =
      Except.ok (notify { type := str "data:import", strategy := some (str "replace") }
        (persist store4Desc)) :=
  C8_export_import_roundtrip exFresh exNow store4Desc (by
    unfold NormalForm NormalSettings NormalTx NormalCat NormalRec
    decide)

/-- Counterexample for C8 as stated: the zero-amount transaction that
`addTransaction` can introduce (a reachable state) is dropped by the
normalization pass inside `importData`, so the round trip does not
reproduce the state. -/
theorem C8_zero_amount_state_refutes :
    ∃ s', importData exFresh exNow (some (exportData zeroStore.state)) (str "replace")
        zeroStore = Except.ok s' ∧ s'.state ≠ zeroStore.state := by
  refine ⟨importDataResult exFresh exNow (some (exportData zeroStore.state)) (str "replace")
    zeroStore, rfl, by decide⟩

/-- Claim C9: each normalizer is idempotent — re-normalizing its own output
(re-injected into the raw domain, as a JSON round trip does) yields an
identical result, for settings, categories, transactions and recurring
templates; the id supply must produce truthy ids (as `createId()` does). -/
theorem C9_normalizers_idempotent (fresh fresh' : Nat → Str) (now now' : Str)
    (hf : ∀ n, fresh n ≠ [])
    (rawS : Option RawSettings) (rawC : Option (List (Option RawCategory)))
    (rawT : Option (List (Option RawTransaction))) (rawR : Option (List (Option RawRecurring))) :
    normalizeSettings (some (normalizeSettings rawS).toRaw) = normalizeSettings rawS ∧
    normalizeCategories fresh'
        (some ((normalizeCategories fresh rawC).map (fun c => some c.toRaw))) =
      normalizeCategories fresh rawC ∧
    normalizeTransactions fresh' now'
        (some ((normalizeTransactions fresh now rawT).map (fun t => some t.toRaw))) =
      normalizeTransactions fresh now rawT ∧
    normalizeRecurring fresh'
        (some ((normalizeRecurring fresh rawR).map (fun r => some r.toRaw))) =
      normalizeRecurring fresh rawR :=
  ⟨normalizeSettings_normal rawS,
   normalizeCategories_of_normal fresh' (normalizeCategories_mem fresh rawC hf),
   normalizeTransactions_of_normal fresh' now' (normalizeTransactions_mem fresh now rawT hf),
   normalizeRecurring_of_normal fresh' (normalizeRecurring_mem fresh rawR hf)⟩

/-- Witness for C9 on a payload exercising the normalizer defaults. -/
theorem C9_normalizers_idempotent_witness :
    normalizeSettings (some (normalizeSettings messyPayload.settings).toRaw) =
      normalizeSettings messyPayload.settings ∧
    normalizeCategories exFresh
        (some ((normalizeCategories exFresh messyPayload.categories).map
          (fun c => some c.toRaw))) =
      normalizeCategories exFresh messyPayload.categories ∧
    normalizeTransactions exFresh exNow
        (some ((normalizeTransactions exFresh exNow messyPayload.transactions).map
          (fun t => some t.toRaw))) =
      normalizeTransactions exFresh exNow messyPayload.transactions ∧
    normalizeRecurring exFresh
        (some ((normalizeRecurring exFresh messyPayload.recurring).map
          (fun r => some r.toRaw))) =
      normalizeRecurring exFresh messyPayload.recurring :=
  C9_normalizers_idempotent exFresh exFresh exNow exNow exFresh_ne_nil
    messyPayload.settings messyPayload.categories messyPayload.transactions
    messyPayload.recurring

end BudgetWise
